import Mathlib

/-!
Shallow embedding of the algorithmic core of the Meeting-Block-Inspector
extension, and proofs about it.

Modules embedded:
* `src/src/services/calendarAnalyzer.js` (Block Builder): grouping of events
  by `(calendarId, civil date)`, per-day busy/free block construction.
* `src/src/services/csvService.js` (single-day criteria evaluator).
* `src/unnamed/part_005` (two-day criteria evaluator, `buildCriteriaCsv`).

Modelling conventions:
* A JavaScript `Date` value (a number of milliseconds, possibly the
  `Invalid Date` / `NaN` value) is modelled as `Option ℚ`, `none` standing
  for `NaN`.  JS comparisons involving `NaN` are false; `Math.max`/`Math.min`
  and subtraction propagate `NaN`; this is reproduced by `jsLt`, `jsGt`,
  `jsMax`, `jsMin`, `jsSub` below.
* `new Date(string)` parsing is kept abstract: functions that parse take an
  explicit `parse : String → Option ℚ` argument standing for the JS runtime's
  ISO-8601 parser (`none` = unparseable string).
* The source's `formatTime` renders a `Date` to `"HH:MM"` for display only;
  blocks here carry the underlying instants (`startD`/`endD`, the very `Date`
  values the source would format) together with the `duration` the source
  stores, so interval properties can be stated exactly.
* JS string `split` (used by `extractDate` and `parseGroupKey`) is modelled
  character-exactly by `splitFirst`/`jsSplit` below.
-/

set_option autoImplicit false

namespace MBI

/-! ## JS number / Date value model (`none` = NaN) -/

def jsLt : Option ℚ → Option ℚ → Bool
  | some a, some b => decide (a < b)
  | _, _ => false

/-- JS `a > b`: `b < a`, false when either side is NaN. -/
def jsGt (a b : Option ℚ) : Bool := jsLt b a

def jsMax : Option ℚ → Option ℚ → Option ℚ
  | some a, some b => some (max a b)
  | _, _ => none

def jsMin : Option ℚ → Option ℚ → Option ℚ
  | some a, some b => some (min a b)
  | _, _ => none

def jsSub : Option ℚ → Option ℚ → Option ℚ
  | some a, some b => some (a - b)
  | _, _ => none

/-- Conversion `(end - start) / 60000` (ms → minutes), NaN-propagating. -/
def msToMin (d : Option ℚ) : Option ℚ := d.map (fun x => x / 60000)

@[simp] theorem jsLt_some_some (a b : ℚ) : jsLt (some a) (some b) = decide (a < b) := rfl
@[simp] theorem jsLt_none_left (b : Option ℚ) : jsLt none b = false := by cases b <;> rfl
@[simp] theorem jsLt_none_right (a : Option ℚ) : jsLt a none = false := by cases a <;> rfl
@[simp] theorem jsGt_some_some (a b : ℚ) : jsGt (some a) (some b) = decide (b < a) := rfl
@[simp] theorem jsMax_some_some (a b : ℚ) : jsMax (some a) (some b) = some (max a b) := rfl
@[simp] theorem jsMin_some_some (a b : ℚ) : jsMin (some a) (some b) = some (min a b) := rfl
@[simp] theorem jsSub_some_some (a b : ℚ) : jsSub (some a) (some b) = some (a - b) := rfl

theorem jsLt_eq_true_iff {a b : Option ℚ} :
    jsLt a b = true ↔ ∃ x y, a = some x ∧ b = some y ∧ x < y := by
  cases a <;> cases b <;> simp [jsLt]

theorem jsGt_eq_true_iff {a b : Option ℚ} :
    jsGt a b = true ↔ ∃ x y, a = some x ∧ b = some y ∧ y < x := by
  cases a <;> cases b <;> simp [jsGt, jsLt]

/-- Lexicographic (code-unit) string order, the JS default-sort comparison. -/
def lexLt : List Char → List Char → Bool
  | [], [] => false
  | [], _ :: _ => true
  | _ :: _, [] => false
  | a :: as, b :: bs => if a < b then true else if b < a then false else lexLt as bs

/-! ## Data model -/

/-- A normalized event as consumed by `analyzeCalendar`
(`{ calendarId, start, end, allDay, summary }`). -/
structure Event where
  calendarId : String
  start : String
  «end» : String
  allDay : Bool
  summary : String
deriving DecidableEq, Repr

/-- The analyzer configuration
(`{ workdayStart, workdayEnd, minBlockMinutes, maxStandardBlockMinutes }`). -/
structure AnalyzerConfig where
  workdayStart : String
  workdayEnd : String
  minBlockMinutes : ℚ
  maxStandardBlockMinutes : ℚ
deriving DecidableEq, Repr

/-- The intermediate busy object built inside `analyzeDayBlocks`
(`{ type: "busy", title, start: Date, end: Date }`). -/
structure RawBlock where
  title : String
  start : Option ℚ
  «end» : Option ℚ
deriving DecidableEq, Repr

/-- A final block. `startD`/`endD` are the `Date` instants the source formats
into the `from`/`to` strings; `duration` is the stored duration in minutes.
Free blocks have no `title`/`isLong` in the source (undefined, falsy); they
are modelled by `""`/`false`. -/
structure Block where
  type : String
  title : String
  startD : Option ℚ
  endD : Option ℚ
  duration : Option ℚ
  isLong : Bool
deriving DecidableEq, Repr

/-- One `{ email, date, blocks }` analysis result. -/
structure DayResult where
  email : String
  date : String
  blocks : List Block
deriving DecidableEq, Repr

/-! ## calendarAnalyzer.js: block builders -/

/-- Source `buildBusyBlock` from `calendarAnalyzer.js`. -/
def buildBusyBlock (b : RawBlock) (maxStandardBlockMinutes : ℚ) : Block :=
  let duration := msToMin (jsSub b.«end» b.start)
  { type := "busy", title := b.title, startD := b.start, endD := b.«end»,
    duration := duration,
    isLong := jsGt duration (some maxStandardBlockMinutes) }

/-- Source `buildFreeBlock` from `calendarAnalyzer.js`. -/
def buildFreeBlock (s e : Option ℚ) : Block :=
  { type := "free", title := "", startD := s, endD := e,
    duration := msToMin (jsSub e s), isLong := false }

/-- The event→raw-busy conversion inside `analyzeDayBlocks`
(`{ type: "busy", title: ev.summary || "", start: new Date(ev.start), end: new Date(ev.end) }`). -/
def toRawBusy (parse : String → Option ℚ) (ev : Event) : RawBlock :=
  { title := ev.summary, start := parse ev.start, «end» := parse ev.«end» }

/-- The clipping step of `analyzeDayBlocks`
(`start: max(start, workStart), end: min(end, workEnd)`). -/
def clipBlock (workStart workEnd : Option ℚ) (b : RawBlock) : RawBlock :=
  { b with start := jsMax b.start workStart, «end» := jsMin b.«end» workEnd }

/-- The `busyBlocks` pipeline of `analyzeDayBlocks`: drop all-day events,
convert, keep events intersecting the workday, clip to the workday. -/
def busyBlocksOf (parse : String → Option ℚ) (events : List Event)
    (workStart workEnd : Option ℚ) : List RawBlock :=
  (((events.filter (fun ev => !ev.allDay)).map (toRawBusy parse)).filter
      (fun b => jsGt b.«end» workStart && jsLt b.start workEnd)).map
    (clipBlock workStart workEnd)

/-- The cursor walk of `analyzeDayBlocks`: free gap before each busy block
(kept only when its duration is positive), then the busy block, the cursor
being set to the block's `end`; after the last block a final free block up to
`workEnd` when the cursor is strictly before it. -/
def walk (maxStandardBlockMinutes : ℚ) (workEnd : Option ℚ) :
    Option ℚ → List RawBlock → List Block
  | cursor, [] =>
      if jsLt cursor workEnd then
        let freeBlock := buildFreeBlock cursor workEnd
        if jsGt freeBlock.duration (some 0) then [freeBlock] else []
      else []
  | cursor, b :: rest =>
      (if jsGt b.start cursor then
        let freeBlock := buildFreeBlock cursor b.start
        if jsGt freeBlock.duration (some 0) then [freeBlock] else []
      else []) ++
      (buildBusyBlock b maxStandardBlockMinutes :: walk maxStandardBlockMinutes workEnd b.«end» rest)

/-- Source `analyzeDayBlocks` from `calendarAnalyzer.js`. -/
def analyzeDayBlocks (parse : String → Option ℚ) (events : List Event)
    (date : String) (config : AnalyzerConfig) : List Block :=
  let workStart := parse (date ++ "T" ++ config.workdayStart ++ ":00")
  let workEnd := parse (date ++ "T" ++ config.workdayEnd ++ ":00")
  walk config.maxStandardBlockMinutes workEnd workStart
    (busyBlocksOf parse events workStart workEnd)

/-! ## JS `String.prototype.split` model

`s.split(sep)` scans left to right for occurrences of the (non-empty)
separator.  `splitFirst sep s` splits at the first occurrence; `jsSplit`
iterates it (with a fuel bounded by the string length, so that it is
structurally recursive and kernel-reducible). -/

def splitFirst (sep : List Char) : List Char → Option (List Char × List Char)
  | [] => none
  | c :: rest =>
      if sep.isPrefixOf (c :: rest) then some ([], (c :: rest).drop sep.length)
      else
        match splitFirst sep rest with
        | some (pre, post) => some (c :: pre, post)
        | none => none

def jsSplitFuel (sep : List Char) : Nat → List Char → List (List Char)
  | 0, s => [s]
  | n + 1, s =>
      match splitFirst sep s with
      | none => [s]
      | some (pre, post) => pre :: jsSplitFuel sep n post

def jsSplit (sep s : List Char) : List (List Char) := jsSplitFuel sep s.length s

/-- `s.split(sep)` on strings. -/
def jsSplitStr (sep s : String) : List String :=
  (jsSplit sep.toList s.toList).map (fun l => ⟨l⟩)

/-! ## calendarAnalyzer.js: grouping and the full pipeline -/

/-- Source `extractDate`: `isoString.split("T")[0]`. -/
def extractDate (isoString : String) : String :=
  (jsSplitStr "T" isoString).headD ""

/-- The grouping key `` `${ev.calendarId}__${dateKey}` ``. -/
def groupKeyOf (ev : Event) : String :=
  ev.calendarId ++ "__" ++ extractDate ev.start

/-- Source `parseGroupKey`: `key.split("__")` destructured as `[email, date]`.
In the pipeline the key always contains `"__"`, so the split always has at
least two components; the fallback branches are unreachable there. -/
def parseGroupKey (key : String) : String × String :=
  match jsSplitStr "__" key with
  | e :: d :: _ => (e, d)
  | [e] => (e, "")
  | [] => ("", "")

/-- Appending an event to the group of `key` in an insertion-ordered
association list (the JS object `map`: `if (!map[key]) map[key] = [];
map[key].push(ev);`). -/
def insertGroup (key : String) (ev : Event) :
    List (String × List Event) → List (String × List Event)
  | [] => [(key, [ev])]
  | (k, evs) :: rest =>
      if k = key then (k, evs ++ [ev]) :: rest
      else (k, evs) :: insertGroup key ev rest

/-- Stable insertion sort; `le a b = true` means `a` may stay before `b`
(the JS comparator returning `<= 0`, `NaN` treated as `0`). -/
def insertSorted {α : Type} (le : α → α → Bool) (a : α) : List α → List α
  | [] => [a]
  | b :: rest => if le a b then a :: b :: rest else b :: insertSorted le a rest

def stableSortBy {α : Type} (le : α → α → Bool) : List α → List α
  | [] => []
  | a :: rest => insertSorted le a (stableSortBy le rest)

/-- The comparator `(a, b) => new Date(a.start) - new Date(b.start)`:
`a` stays before `b` when the difference is `<= 0`; a `NaN` difference is
treated as `0` (order kept). -/
def eventStartLe (parse : String → Option ℚ) (a b : Event) : Bool :=
  match parse a.start, parse b.start with
  | some x, some y => decide (x ≤ y)
  | _, _ => true

/-- One step of the grouping loop: skip events with a falsy (empty) `start`
or `end`, otherwise push onto the group of the composite key. -/
def groupStep (m : List (String × List Event)) (ev : Event) :
    List (String × List Event) :=
  if ev.start = "" || ev.«end» = "" then m
  else insertGroup (groupKeyOf ev) ev m

/-- The grouping loop of `groupEventsByUserAndDay` (the `map` object, in
insertion order). -/
def groupFold (events : List Event) : List (String × List Event) :=
  events.foldl groupStep []

/-- Source `groupEventsByUserAndDay` from `calendarAnalyzer.js`: group events with
non-empty `start`/`end` under `` `${calendarId}__${date}` `` keys (insertion
order), then sort each group by parsed start instant (stable). -/
def groupEventsByUserAndDay (parse : String → Option ℚ) (events : List Event) :
    List (String × List Event) :=
  (groupFold events).map
    (fun g => (g.1, stableSortBy (eventStartLe parse) g.2))

/-- Source `analyzeCalendar` from `calendarAnalyzer.js`. -/
def analyzeCalendar (parse : String → Option ℚ) (events : List Event)
    (config : AnalyzerConfig) : List DayResult :=
  if events.isEmpty then []
  else
    (groupEventsByUserAndDay parse events).map
      (fun g =>
        let p := parseGroupKey g.1
        { email := p.1, date := p.2,
          blocks := analyzeDayBlocks parse g.2 p.2 config })

/-! ## Shared shapes for the criteria evaluators -/

/-- A fetch failure row source (`{ calendarId, reason, message }`). -/
structure FetchFailure where
  calendarId : String
  reason : String
  message : String
deriving DecidableEq, Repr

/-- JS `failure.message || (failure.reason === "not_found_or_no_access" ? … : …)`. -/
def failureMessage (f : FetchFailure) : String :=
  if f.message ≠ "" then f.message
  else if f.reason = "not_found_or_no_access" then "Calendar not found or not accessible"
  else "Calendar could not be read"

/-- Grouping of analysis entries by email in a `Map` (insertion order,
entries with empty email skipped), shared by both criteria evaluators. -/
def insertByEmail (entry : DayResult) :
    List (String × List DayResult) → List (String × List DayResult)
  | [] => [(entry.email, [entry])]
  | (k, es) :: rest =>
      if k = entry.email then (k, es ++ [entry]) :: rest
      else (k, es) :: insertByEmail entry rest

def byEmail (analysis : List DayResult) : List (String × List DayResult) :=
  analysis.foldl
    (fun m entry => if entry.email = "" then m else insertByEmail entry m) []

/-- JS `config?.maxStandardBlockMinutes || 60` (`0` is falsy, hence replaced). -/
def effectiveMaxBlock (maxStandardBlockMinutes : ℚ) : ℚ :=
  if maxStandardBlockMinutes = 0 then 60 else maxStandardBlockMinutes

/-! ## csvService.js: single-day criteria evaluator -/

namespace OneDay

/-- Source `sumBusyMinutesForDate` from `csvService.js`: total `duration` of busy
blocks on the entry for `dateStr` (`b?.duration || 0`; `0` when absent). -/
def sumBusyMinutesForDate (entries : List DayResult) (dateStr : String) : ℚ :=
  match entries.find? (fun e => e.date == dateStr) with
  | none => 0
  | some e =>
      ((e.blocks.filter (fun b => b.type == "busy")).map
        (fun b => b.duration.getD 0)).sum

/-- Source `hasLongBlocksForDate` from `csvService.js`. -/
def hasLongBlocksForDate (entries : List DayResult) (dateStr : String)
    (maxBlock : ℚ) : Bool :=
  match entries.find? (fun e => e.date == dateStr) with
  | none => false
  | some e =>
      e.blocks.any (fun b => b.type == "busy" && decide (maxBlock < b.duration.getD 0))

/-- Source `buildSlackMessageOneDay` from `csvService.js`.  `maxBlockStr` stands for
the JS rendering of the interpolated `maxBlock` number. -/
def buildSlackMessageOneDay (c1 c2 : Bool) (maxBlockStr : String) : String :=
  if c1 && c2 then
    "hola, muchas gracias por mantener tu calendario actualizado y dentro de los criterios establecidos.\nmuchas gracias !"
  else
    let parts : List String :=
      (if !c1 then
        ["veo que tienes bloques mayores a " ++ maxBlockStr ++
          " min, porfa modifícalos para que sean de " ++ maxBlockStr ++ " min o menos"]
      else []) ++
      (if !c2 then
        ["veo que tu calendario tiene unos espacios vacios, porfa agrega las actividades que tengas"]
      else [])
    "hola, " ++ String.intercalate " y " parts ++ "\nmuchas gracias !"

/-- The per-user loop body of the single-day `buildCriteriaCsv`
(`csvService.js`), with the numeric fields kept as rationals. -/
structure Verdict where
  email : String
  passed : Bool
  criteriaPassed : List String
  criteriaFailed : List String
  slackMessage : String
  busyMinutes : ℚ
  busyPercent : ℚ
  c1 : Bool
  c2 : Bool
deriving DecidableEq, Repr

/-- The single-day criteria evaluation for one user: `day` is
`selectedDates[0]` (or `null`), `TOTAL_MIN = 540` is a fixed constant,
`c1` = no long blocks on the day, `c2` = `busyPercent >= 85`,
`passed = c1 && c2`. -/
def oneDayVerdict (email : String) (entries : List DayResult)
    (day : Option String) (config : AnalyzerConfig) : Verdict :=
  let maxBlock := effectiveMaxBlock config.maxStandardBlockMinutes
  let TOTAL_MIN : ℚ := 540
  let busyMin := match day with
    | some d => sumBusyMinutesForDate entries d
    | none => 0
  let busyPercent := if 0 < TOTAL_MIN then busyMin / TOTAL_MIN * 100 else 0
  let hasLong := match day with
    | some d => hasLongBlocksForDate entries d maxBlock
    | none => false
  let c1 := !hasLong
  let c2 := decide (85 ≤ busyPercent)
  let ok := (if c1 then ["Bloques <= " ++ toString maxBlock ++ " min"] else []) ++
            (if c2 then ["Busy >= 85%"] else [])
  let fail := (if !c1 then ["Bloques > " ++ toString maxBlock ++ " min"] else []) ++
              (if !c2 then ["Busy < 85%"] else [])
  { email := email, passed := c1 && c2, criteriaPassed := ok,
    criteriaFailed := fail,
    slackMessage := buildSlackMessageOneDay c1 c2 (toString maxBlock),
    busyMinutes := busyMin, busyPercent := busyPercent, c1 := c1, c2 := c2 }

/-- The user rows of the single-day `buildCriteriaCsv` (header and failure
rows aside): one verdict per email group, in `Map` insertion order. -/
def criteriaVerdicts (analysis : List DayResult) (selectedDates : List String)
    (config : AnalyzerConfig) : List Verdict :=
  let day := selectedDates.head?
  (byEmail analysis).map (fun g => oneDayVerdict g.1 g.2 day config)

end OneDay

/-! ## part_005: two-day criteria evaluator -/

namespace TwoDay

/-- Source `sumBusyMinutesForDate` from `part_005` (returns `0` on a `null` date). -/
def sumBusyMinutesForDate (entries : List DayResult) : Option String → ℚ
  | none => 0
  | some dateStr =>
      match entries.find? (fun e => e.date == dateStr) with
      | none => 0
      | some e =>
          ((e.blocks.filter (fun b => b.type == "busy")).map
            (fun b => b.duration.getD 0)).sum

/-- Source `checkHasLongBlocks` from `part_005`: any busy block of any entry (all
dates) longer than `maxBlock`. -/
def checkHasLongBlocks (entries : List DayResult) (maxBlock : ℚ) : Bool :=
  entries.any (fun e =>
    e.blocks.any (fun b => b.type == "busy" && decide (maxBlock < b.duration.getD 0)))

/-- Source `buildSlackMessage` from `part_005`. -/
def buildSlackMessage (c1 c2 c3 : Bool) : String :=
  if c1 && c2 && c3 then
    "hola, muchas gracias por mantener tu calendario actualizado y dentro de los criterios establecidos.\nmuchas gracias !"
  else
    let parts : List String :=
      (if !c1 then
        ["veo que tienes bloques mayores a 60 min, porfa modifícalos para que sean de 60 min o menos"]
      else []) ++
      (if !c2 && !c3 then
        ["veo que el día de hoy presentas una disponibilidad de más del 30%, y mañana mayor del 70% porfa arregla el calendario y agrega las actividades que tengas"]
      else if !c2 then
        ["veo que el día de hoy presentas una disponibilidad de más del 30%, porfa arregla el calendario y agrega las actividades que tengas"]
      else if !c3 then
        ["veo que el día de mañana presentas una disponibilidad de más del 70%, porfa arregla el calendario y agrega las actividades que tengas"]
      else [])
    if parts.isEmpty then
      "hola, hemos detectado algunas inconsistencias en tu calendario, porfa revísalo y ajusta los bloques y actividades según las políticas.\nmuchas gracias !"
    else
      "hola, " ++ String.intercalate " y " parts ++ "\nmuchas gracias !"

/-- JS `[...selectedDates].sort()` restricted to `length === 2`, otherwise
`[null, null]`; the default sort compares elements as strings, so a two
element array is swapped exactly when the second compares below the first. -/
def sortedDatePair (selectedDates : List String) : Option String × Option String :=
  match selectedDates with
  | [a, b] => if lexLt b.data a.data then (some b, some a) else (some a, some b)
  | _ => (none, none)

/-- JS `Math.max(0, TOTAL_MIN - busy)`: the free minutes used for availability. -/
def freeMinutes (busy : ℚ) : ℚ := max 0 (540 - busy)

/-- The availability percentage for one date:
`(Math.max(0, 540 - busy) / 540) * 100`. -/
def availabilityForDate (entries : List DayResult) (day : Option String) : ℚ :=
  freeMinutes (sumBusyMinutesForDate entries day) / 540 * 100

/-- The per-user row of the two-day `buildCriteriaCsv` (`part_005`), as the
list of CSV cells `[email, passed, criteria_passed, criteria_failed,
slack_message, day1, day2]`. -/
def userRow (email : String) (entries : List DayResult)
    (day1 day2 : Option String) (config : AnalyzerConfig) : List String :=
  let maxBlock := effectiveMaxBlock config.maxStandardBlockMinutes
  let availabilityDay1 := availabilityForDate entries day1
  let availabilityDay2 := availabilityForDate entries day2
  let c1 := !checkHasLongBlocks entries maxBlock
  let c2 := decide (availabilityDay1 ≤ 30)
  let c3 := decide (availabilityDay2 ≤ 70)
  let passed := c1 && c2 && c3
  let criteriaPassed :=
    (if c1 then ["Bloques máximos de 60 minutos"] else []) ++
    (if c2 then ["Disponibilidad día 1 menor o igual al 30%"] else []) ++
    (if c3 then ["Disponibilidad día 2 menor o igual al 70%"] else [])
  let criteriaFailed :=
    (if !c1 then ["Bloques mayores a 60 minutos"] else []) ++
    (if !c2 then ["Disponibilidad día 1 mayor al 30%"] else []) ++
    (if !c3 then ["Disponibilidad día 2 mayor al 70%"] else [])
  [email, if passed then "true" else "false",
    String.intercalate " | " criteriaPassed,
    String.intercalate " | " criteriaFailed,
    buildSlackMessage c1 c2 c3,
    day1.getD "", day2.getD ""]

/-- A failure row of the two-day `buildCriteriaCsv`. -/
def failureRow (f : FetchFailure) (day1 day2 : Option String) : List String :=
  [f.calendarId, "error", "", "", failureMessage f, day1.getD "", day2.getD ""]

def header : List String :=
  ["email", "passed", "criteria_passed", "criteria_failed", "slack_message",
    "day1", "day2"]

/-- The rows of the two-day `buildCriteriaCsv` (`part_005`): header, one row
per email group, one row per failure. -/
def buildCriteriaRows (analysis : List DayResult) (failures : List FetchFailure)
    (selectedDates : List String) (config : AnalyzerConfig) : List (List String) :=
  let p := sortedDatePair selectedDates
  header ::
    ((byEmail analysis).map (fun g => userRow g.1 g.2 p.1 p.2 config) ++
      failures.map (fun f => failureRow f p.1 p.2))

end TwoDay

/-! ## Concrete demonstration inputs

A concrete stand-in for the JS `Date` parser (an explicit table of the ISO
strings used by the demonstration events, consistent with a UTC runtime:
millisecond offsets from 2025-01-06 07:00), plus demonstration events and
configurations. -/

def demoTable : List (String × ℚ) :=
  [("2025-01-06T07:00:00", 0),
   ("2025-01-06T17:00:00", 36000000),
   ("2025-01-06T09:00:00Z", 7200000),
   ("2025-01-06T12:00:00Z", 18000000),
   ("2025-01-06T10:00:00Z", 10800000),
   ("2025-01-06T11:00:00Z", 14400000),
   ("2025-01-06T13:00:00Z", 21600000),
   ("2025-01-06T14:00:00Z", 25200000)]

def parseDemo (s : String) : Option ℚ :=
  (demoTable.find? (fun p => p.1 == s)).map (fun p => p.2)

def cfgDemo : AnalyzerConfig :=
  { workdayStart := "07:00", workdayEnd := "17:00",
    minBlockMinutes := 30, maxStandardBlockMinutes := 60 }

/-- Same threshold as `cfgDemo`, different workday window. -/
def cfgDemo2 : AnalyzerConfig :=
  { workdayStart := "08:00", workdayEnd := "16:00",
    minBlockMinutes := 30, maxStandardBlockMinutes := 60 }

/-- Meeting 09:00–12:00. -/
def evBig : Event :=
  { calendarId := "u@x.com", start := "2025-01-06T09:00:00Z",
    «end» := "2025-01-06T12:00:00Z", allDay := false, summary := "Big" }

/-- Meeting 10:00–11:00, nested inside `evBig`. -/
def evSmall : Event :=
  { calendarId := "u@x.com", start := "2025-01-06T10:00:00Z",
    «end» := "2025-01-06T11:00:00Z", allDay := false, summary := "Small" }

/-- Meeting 13:00–14:00. -/
def evAfternoon : Event :=
  { calendarId := "u@x.com", start := "2025-01-06T13:00:00Z",
    «end» := "2025-01-06T14:00:00Z", allDay := false, summary := "Afternoon" }

/-- A zero-length (point) event at 10:00. -/
def evPoint : Event :=
  { calendarId := "u@x.com", start := "2025-01-06T10:00:00Z",
    «end» := "2025-01-06T10:00:00Z", allDay := false, summary := "P" }

/-- An event whose `end` does not parse. -/
def evBadEnd : Event :=
  { calendarId := "u@x.com", start := "2025-01-06T09:00:00Z",
    «end» := "garbage", allDay := false, summary := "Bad" }

/-- An all-day event. -/
def evAllDay : Event :=
  { calendarId := "a@x.com", start := "2025-01-06T09:00:00Z",
    «end» := "2025-01-06T10:00:00Z", allDay := true, summary := "Holiday" }

/-- An analysis entry whose busy blocks sum to 600 minutes on 2025-01-06. -/
def entry600 : DayResult :=
  { email := "u@x.com", date := "2025-01-06",
    blocks := [{ type := "busy", title := "m1", startD := some 0, endD := some 1,
                 duration := some 300, isLong := false },
               { type := "busy", title := "m2", startD := some 0, endD := some 1,
                 duration := some 300, isLong := false }] }

/-- An analysis entry with no blocks at all. -/
def entryU : DayResult := { email := "u@x.com", date := "2025-01-06", blocks := [] }

/-! ## C4: single-day criteria evaluation -/

/-- C4: in single-day criteria evaluation, `busyPercent` is
`busyMinutes / 540 * 100` with `540` a fixed constant independent of the
configured workday start/end (verdicts agree for any two configurations
sharing the block threshold), rule C2 holds iff `busyPercent >= 85`, and
`passed = C1 && C2`. -/
theorem C4_single_day_criteria (email : String) (entries : List DayResult)
    (day : Option String) (c c' : AnalyzerConfig)
    (h : c.maxStandardBlockMinutes = c'.maxStandardBlockMinutes) :
    (OneDay.oneDayVerdict email entries day c).busyPercent =
        (OneDay.oneDayVerdict email entries day c).busyMinutes / 540 * 100 ∧
    ((OneDay.oneDayVerdict email entries day c).c2 = true ↔
        85 ≤ (OneDay.oneDayVerdict email entries day c).busyPercent) ∧
    (OneDay.oneDayVerdict email entries day c).passed =
        ((OneDay.oneDayVerdict email entries day c).c1 &&
          (OneDay.oneDayVerdict email entries day c).c2) ∧
    OneDay.oneDayVerdict email entries day c = OneDay.oneDayVerdict email entries day c' := by
  refine ⟨?_, ?_, rfl, ?_⟩
  · show (if (0:ℚ) < 540 then _ / 540 * 100 else 0) = _
    norm_num [OneDay.oneDayVerdict]
  · simp [OneDay.oneDayVerdict]
  · unfold OneDay.oneDayVerdict
    rw [h]

theorem C4_single_day_criteria_witness :
    cfgDemo.maxStandardBlockMinutes = cfgDemo2.maxStandardBlockMinutes ∧
    ((OneDay.oneDayVerdict "u@x.com" [entry600] (some "2025-01-06") cfgDemo).busyPercent =
        (OneDay.oneDayVerdict "u@x.com" [entry600] (some "2025-01-06") cfgDemo).busyMinutes / 540 * 100 ∧
      ((OneDay.oneDayVerdict "u@x.com" [entry600] (some "2025-01-06") cfgDemo).c2 = true ↔
        85 ≤ (OneDay.oneDayVerdict "u@x.com" [entry600] (some "2025-01-06") cfgDemo).busyPercent) ∧
      (OneDay.oneDayVerdict "u@x.com" [entry600] (some "2025-01-06") cfgDemo).passed =
        ((OneDay.oneDayVerdict "u@x.com" [entry600] (some "2025-01-06") cfgDemo).c1 &&
          (OneDay.oneDayVerdict "u@x.com" [entry600] (some "2025-01-06") cfgDemo).c2) ∧
      OneDay.oneDayVerdict "u@x.com" [entry600] (some "2025-01-06") cfgDemo =
        OneDay.oneDayVerdict "u@x.com" [entry600] (some "2025-01-06") cfgDemo2) :=
  ⟨rfl, C4_single_day_criteria "u@x.com" [entry600] (some "2025-01-06") cfgDemo cfgDemo2 rfl⟩

/-! ## C5: two-day availability formula -/

/-- Availability exactly as the specification words it:
`(totalWorkdayMinutes - busyMinutesForThatDate) / totalWorkdayMinutes * 100`
with `totalWorkdayMinutes = 540`; for comparison with the source's clamped
computation. -/
def specAvailability (busy : ℚ) : ℚ := (540 - busy) / 540 * 100

/-- C5 counterexample: with 600 busy minutes the source availability is `0`
(the free minutes are clamped at `Math.max(0, …)`), while the claimed
formula gives `-100/9`. -/
theorem C5_counterexample :
    TwoDay.sumBusyMinutesForDate [entry600] (some "2025-01-06") = 600 ∧
    TwoDay.availabilityForDate [entry600] (some "2025-01-06") = 0 ∧
    specAvailability 600 = -100 / 9 ∧
    TwoDay.availabilityForDate [entry600] (some "2025-01-06") ≠
      specAvailability (TwoDay.sumBusyMinutesForDate [entry600] (some "2025-01-06")) := by
  have h1 : TwoDay.sumBusyMinutesForDate [entry600] (some "2025-01-06") = 600 := by
    norm_num [TwoDay.sumBusyMinutesForDate, entry600, List.find?]
  have h2 : TwoDay.availabilityForDate [entry600] (some "2025-01-06") = 0 := by
    norm_num [TwoDay.availabilityForDate, TwoDay.freeMinutes, TwoDay.sumBusyMinutesForDate,
      entry600, List.find?]
  refine ⟨h1, h2, by norm_num [specAvailability], ?_⟩
  rw [h1, h2]
  norm_num [specAvailability]

/-- C5 amended: the availability used by rules C2/C3 is
`max 0 (540 - busy) / 540 * 100`; it agrees with the claimed formula exactly
when `busy ≤ 540`. -/
theorem C5_availability_amended (entries : List DayResult) (day : Option String) :
    TwoDay.availabilityForDate entries day =
      max 0 (540 - TwoDay.sumBusyMinutesForDate entries day) / 540 * 100 ∧
    (TwoDay.sumBusyMinutesForDate entries day ≤ 540 →
      TwoDay.availabilityForDate entries day =
        specAvailability (TwoDay.sumBusyMinutesForDate entries day)) := by
  constructor
  · rfl
  · intro h
    unfold TwoDay.availabilityForDate TwoDay.freeMinutes specAvailability
    rw [max_eq_right (by linarith)]

theorem C5_availability_amended_witness :
    TwoDay.sumBusyMinutesForDate [entryU] (some "2025-01-06") ≤ 540 ∧
    TwoDay.availabilityForDate [entryU] (some "2025-01-06") =
      specAvailability (TwoDay.sumBusyMinutesForDate [entryU] (some "2025-01-06")) :=
  ⟨by norm_num [TwoDay.sumBusyMinutesForDate, entryU, List.find?],
   (C5_availability_amended [entryU] (some "2025-01-06")).2
     (by norm_num [TwoDay.sumBusyMinutesForDate, entryU, List.find?])⟩

/-! ## C6: two-day date-order invariance -/

theorem lexLt_asymm : ∀ {a b : List Char}, lexLt a b = true → lexLt b a = false := by
  intro a
  induction a with
  | nil => intro b h; cases b <;> simp_all [lexLt]
  | cons x xs ih =>
    intro b h
    cases b with
    | nil => simp [lexLt] at h
    | cons y ys =>
      by_cases hxy : x < y
      · have hyx : ¬ y < x := lt_asymm hxy
        simp [lexLt, hxy, hyx]
      · by_cases hyx : y < x
        · simp [lexLt, hxy, hyx] at h
        · simp only [lexLt, if_neg hxy, if_neg hyx] at h
          simp only [lexLt, if_neg hyx, if_neg hxy]
          exact ih h

/-- C6: evaluating the two-day criteria with dates `[A, B]` or `[B, A]`
(`A` below `B` in the JS string order) gives the same `day1`/`day2`
assignment (`day1 = A`, `day2 = B`) and identical output rows. -/
theorem C6_two_day_order_invariance (A B : String) (h : lexLt A.data B.data = true)
    (analysis : List DayResult) (failures : List FetchFailure)
    (config : AnalyzerConfig) :
    TwoDay.sortedDatePair [A, B] = (some A, some B) ∧
    TwoDay.sortedDatePair [B, A] = (some A, some B) ∧
    TwoDay.buildCriteriaRows analysis failures [A, B] config =
      TwoDay.buildCriteriaRows analysis failures [B, A] config := by
  have h1 : lexLt B.data A.data = false := lexLt_asymm h
  refine ⟨by simp [TwoDay.sortedDatePair, h1], by simp [TwoDay.sortedDatePair, h], ?_⟩
  unfold TwoDay.buildCriteriaRows
  simp [TwoDay.sortedDatePair, h, h1]

theorem C6_two_day_order_invariance_witness :
    lexLt "2025-01-06".data "2025-01-07".data = true ∧
    (TwoDay.sortedDatePair ["2025-01-06", "2025-01-07"] =
        (some "2025-01-06", some "2025-01-07") ∧
      TwoDay.sortedDatePair ["2025-01-07", "2025-01-06"] =
        (some "2025-01-06", some "2025-01-07") ∧
      TwoDay.buildCriteriaRows [entry600] [] ["2025-01-06", "2025-01-07"] cfgDemo =
        TwoDay.buildCriteriaRows [entry600] [] ["2025-01-07", "2025-01-06"] cfgDemo) :=
  ⟨by decide,
   C6_two_day_order_invariance "2025-01-06" "2025-01-07" (by decide) [entry600] [] cfgDemo⟩

/-! ## C9: two-day evaluation with fewer than two dates -/

/-- C9 counterexample: invoking the two-day evaluation with an empty date
list produces a normal verdict row (`passed = "false"`) for the user, not an
error. -/
theorem C9_counterexample :
    (TwoDay.buildCriteriaRows [entryU] [] [] cfgDemo).length = 2 ∧
    ((TwoDay.buildCriteriaRows [entryU] [] [] cfgDemo).getD 1 []).getD 0 "" = "u@x.com" ∧
    ((TwoDay.buildCriteriaRows [entryU] [] [] cfgDemo).getD 1 []).getD 1 "" = "false" := by
  refine ⟨?_, ?_, ?_⟩ <;>
    (simp [TwoDay.buildCriteriaRows, TwoDay.sortedDatePair, byEmail, insertByEmail, entryU,
      TwoDay.userRow, TwoDay.availabilityForDate, TwoDay.freeMinutes,
      TwoDay.sumBusyMinutesForDate, TwoDay.checkHasLongBlocks, effectiveMaxBlock,
      TwoDay.header, cfgDemo] <;> norm_num)

/-- C9 amended: with fewer than two (or more than two) dates, the two-day
evaluation does not fail: both `day1` and `day2` are `null`, and an ordinary
verdict row (`passed` `"true"` or `"false"`) is still emitted per user. -/
theorem C9_missing_dates_amended (analysis : List DayResult)
    (failures : List FetchFailure) (selectedDates : List String)
    (config : AnalyzerConfig) (h : selectedDates.length ≠ 2) :
    TwoDay.sortedDatePair selectedDates = (none, none) ∧
    TwoDay.buildCriteriaRows analysis failures selectedDates config =
      TwoDay.header ::
        ((byEmail analysis).map (fun g => TwoDay.userRow g.1 g.2 none none config) ++
          failures.map (fun f => TwoDay.failureRow f none none)) ∧
    ∀ g ∈ byEmail analysis,
      (TwoDay.userRow g.1 g.2 none none config).getD 1 "" = "true" ∨
      (TwoDay.userRow g.1 g.2 none none config).getD 1 "" = "false" := by
  have hsp : TwoDay.sortedDatePair selectedDates = (none, none) := by
    rcases selectedDates with _ | ⟨a, _ | ⟨b, _ | ⟨c, t⟩⟩⟩
    · rfl
    · rfl
    · exact absurd rfl h
    · rfl
  refine ⟨hsp, ?_, ?_⟩
  · unfold TwoDay.buildCriteriaRows
    rw [hsp]
  · intro g _
    simp only [TwoDay.userRow, List.getD_cons_succ, List.getD_cons_zero]
    split <;> simp

theorem C9_missing_dates_amended_witness :
    (["2025-01-06"] : List String).length ≠ 2 ∧
    (TwoDay.sortedDatePair ["2025-01-06"] = (none, none) ∧
      TwoDay.buildCriteriaRows [entryU] [] ["2025-01-06"] cfgDemo =
        TwoDay.header ::
          ((byEmail [entryU]).map (fun g => TwoDay.userRow g.1 g.2 none none cfgDemo) ++
            ([] : List FetchFailure).map (fun f => TwoDay.failureRow f none none)) ∧
      ∀ g ∈ byEmail [entryU],
        (TwoDay.userRow g.1 g.2 none none cfgDemo).getD 1 "" = "true" ∨
        (TwoDay.userRow g.1 g.2 none none cfgDemo).getD 1 "" = "false") :=
  ⟨by decide, C9_missing_dates_amended [entryU] [] ["2025-01-06"] cfgDemo (by decide)⟩

/-! ## Walk and busy-pipeline membership lemmas -/

/-- Every block emitted by the walk is either a free block that passed the
positive-duration guard, or the busy block of one of the raw blocks. -/
theorem mem_walk {maxStd : ℚ} {workEnd cursor : Option ℚ} {bs : List RawBlock}
    {b : Block} (hb : b ∈ walk maxStd workEnd cursor bs) :
    (b.type = "free" ∧ jsGt b.duration (some 0) = true) ∨
    ∃ r ∈ bs, b = buildBusyBlock r maxStd := by
  induction bs generalizing cursor with
  | nil =>
    simp only [walk] at hb
    split at hb
    · split at hb
      · rename_i hdur
        rw [List.mem_singleton] at hb
        subst hb
        exact Or.inl ⟨rfl, hdur⟩
      · simp at hb
    · simp at hb
  | cons r rest ih =>
    simp only [walk, List.mem_append, List.mem_cons] at hb
    rcases hb with hfree | hb | hwalk
    · split at hfree
      · split at hfree
        · rename_i hdur
          rw [List.mem_singleton] at hfree
          subst hfree
          exact Or.inl ⟨rfl, hdur⟩
        · simp at hfree
      · simp at hfree
    · exact Or.inr ⟨r, List.mem_cons_self r rest, hb⟩
    · rcases ih hwalk with h | ⟨r', hr', hb'⟩
      · exact Or.inl h
      · exact Or.inr ⟨r', List.mem_cons_of_mem r hr', hb'⟩

/-- Every raw block surviving the busy pipeline comes from a non-all-day
event whose parsed endpoints intersect the (parsed) workday window, and is
that event clipped to the window. -/
theorem mem_busyBlocksOf {parse : String → Option ℚ} {events : List Event}
    {workStart workEnd : Option ℚ} {r : RawBlock}
    (hr : r ∈ busyBlocksOf parse events workStart workEnd) :
    ∃ ev ∈ events, ev.allDay = false ∧
      ∃ s e w₁ w₂, parse ev.start = some s ∧ parse ev.«end» = some e ∧
        workStart = some w₁ ∧ workEnd = some w₂ ∧ w₁ < e ∧ s < w₂ ∧
        r = { title := ev.summary, start := some (max s w₁), «end» := some (min e w₂) } := by
  unfold busyBlocksOf at hr
  rw [List.mem_map] at hr
  obtain ⟨r₀, hr₀, hclip⟩ := hr
  rw [List.mem_filter] at hr₀
  obtain ⟨hr₀m, hcond⟩ := hr₀
  rw [List.mem_map] at hr₀m
  obtain ⟨ev, hev, htoraw⟩ := hr₀m
  rw [List.mem_filter] at hev
  obtain ⟨hevm, hall⟩ := hev
  rw [Bool.and_eq_true] at hcond
  obtain ⟨hgt, hlt⟩ := hcond
  subst htoraw
  simp only [toRawBusy] at hgt hlt hclip
  rw [jsGt_eq_true_iff] at hgt
  obtain ⟨e, w₁, he, hw₁, hwe⟩ := hgt
  rw [jsLt_eq_true_iff] at hlt
  obtain ⟨s, w₂, hs, hw₂, hsw⟩ := hlt
  refine ⟨ev, hevm, by simpa using hall, s, e, w₁, w₂, hs, he, hw₁, hw₂, hwe, hsw, ?_⟩
  subst hclip
  simp [clipBlock, hs, he, hw₁, hw₂]

/-! ## C3: block durations -/

/-- C3 counterexample: a point event (equal `start` and `end`) inside the
window yields a busy block of duration `0` in the output (only free blocks
are guarded by the positive-duration check). -/
theorem C3_counterexample :
    (analyzeDayBlocks parseDemo [evPoint] "2025-01-06" cfgDemo).map
        (fun b => (b.type, b.duration)) =
      [("free", some 180), ("busy", some 0), ("free", some 420)] := by
  have hbusy : busyBlocksOf parseDemo [evPoint] (some 0) (some 36000000) =
      [{ title := "P", start := some 10800000, «end» := some 10800000 }] := by
    simp [busyBlocksOf, toRawBusy, parseDemo, demoTable, evPoint]
    norm_num [jsGt, jsLt, clipBlock, jsMax, jsMin]
  have hall : analyzeDayBlocks parseDemo [evPoint] "2025-01-06" cfgDemo =
      [buildFreeBlock (some 0) (some 10800000),
       buildBusyBlock { title := "P", start := some 10800000, «end» := some 10800000 } 60,
       buildFreeBlock (some 10800000) (some 36000000)] := by
    show walk 60 (some 36000000) (some 0)
        (busyBlocksOf parseDemo [evPoint] (some 0) (some 36000000)) = _
    rw [hbusy]
    simp only [walk]
    norm_num [buildFreeBlock, buildBusyBlock, msToMin, jsSub, jsGt, jsLt]
  rw [hall]
  norm_num [buildFreeBlock, buildBusyBlock, msToMin, jsSub]

/-- C3 amended: under a valid configuration (`workStart < workEnd` whenever
both parse) and events with `start ≤ end` (whenever both parse), every
emitted block has a defined duration `≥ 0`, and every free block has
duration `> 0`; a busy block may have duration exactly `0` (boundary
equality), as the counterexample shows. -/
theorem C3_durations_amended (parse : String → Option ℚ) (events : List Event)
    (date : String) (config : AnalyzerConfig)
    (hcfg : ∀ w₁ w₂, parse (date ++ "T" ++ config.workdayStart ++ ":00") = some w₁ →
      parse (date ++ "T" ++ config.workdayEnd ++ ":00") = some w₂ → w₁ < w₂)
    (hev : ∀ ev ∈ events, ∀ s e, parse ev.start = some s → parse ev.«end» = some e → s ≤ e) :
    ∀ b ∈ analyzeDayBlocks parse events date config,
      (∃ d, b.duration = some d ∧ 0 ≤ d) ∧
      (b.type = "free" → ∃ d, b.duration = some d ∧ 0 < d) := by
  intro b hb
  unfold analyzeDayBlocks at hb
  rcases mem_walk hb with ⟨hfree, hpos⟩ | ⟨r, hr, hbusy⟩
  · rw [jsGt_eq_true_iff] at hpos
    obtain ⟨d, z, hdur, h0, hzd⟩ := hpos
    obtain rfl : (0 : ℚ) = z := by injection h0
    exact ⟨⟨d, hdur, le_of_lt hzd⟩, fun _ => ⟨d, hdur, hzd⟩⟩
  · obtain ⟨ev, hev', _, s, e, w₁, w₂, hs, he, hw₁, hw₂, hwe, hsw, hre⟩ :=
      mem_busyBlocksOf hr
    subst hbusy
    subst hre
    have hse : s ≤ e := hev ev hev' s e hs he
    have hww : w₁ < w₂ := hcfg w₁ w₂ hw₁ hw₂
    have hd : max s w₁ ≤ min e w₂ := by
      apply max_le
      · exact le_min hse (le_of_lt hsw)
      · exact le_min (le_of_lt hwe) (le_of_lt hww)
    constructor
    · refine ⟨(min e w₂ - max s w₁) / 60000, ?_, ?_⟩
      · simp [buildBusyBlock, msToMin, jsSub]
      · have h0 : (0 : ℚ) ≤ min e w₂ - max s w₁ := by linarith
        exact div_nonneg h0 (by norm_num)
    · intro htype
      simp [buildBusyBlock] at htype

/-- Concrete instance of the amended C3 statement on the demonstration
input, with its hypotheses discharged. -/
theorem C3_durations_amended_witness :
    (∀ w₁ w₂, parseDemo ("2025-01-06" ++ "T" ++ cfgDemo.workdayStart ++ ":00") = some w₁ →
      parseDemo ("2025-01-06" ++ "T" ++ cfgDemo.workdayEnd ++ ":00") = some w₂ → w₁ < w₂) ∧
    (∀ ev ∈ [evBig], ∀ s e, parseDemo ev.start = some s →
      parseDemo ev.«end» = some e → s ≤ e) ∧
    ∀ b ∈ analyzeDayBlocks parseDemo [evBig] "2025-01-06" cfgDemo,
      (∃ d, b.duration = some d ∧ 0 ≤ d) ∧
      (b.type = "free" → ∃ d, b.duration = some d ∧ 0 < d) := by
  have h1 : ∀ w₁ w₂, parseDemo ("2025-01-06" ++ "T" ++ cfgDemo.workdayStart ++ ":00") = some w₁ →
      parseDemo ("2025-01-06" ++ "T" ++ cfgDemo.workdayEnd ++ ":00") = some w₂ → w₁ < w₂ := by
    intro w₁ w₂ hw₁ hw₂
    simp [parseDemo, demoTable, cfgDemo] at hw₁ hw₂
    subst hw₁; subst hw₂
    norm_num
  have h2 : ∀ ev ∈ [evBig], ∀ s e, parseDemo ev.start = some s →
      parseDemo ev.«end» = some e → s ≤ e := by
    intro ev hev s e hs he
    simp only [List.mem_singleton] at hev
    subst hev
    simp [parseDemo, demoTable, evBig] at hs he
    subst hs; subst he
    norm_num
  exact ⟨h1, h2, C3_durations_amended parseDemo [evBig] "2025-01-06" cfgDemo h1 h2⟩

/-! ## C8: unparseable timestamps -/

/-- Filtering before a mapped filter may be dropped when the outer predicate
forces the inner one. -/
theorem filter_map_comm {α β : Type} (f : α → β) (p : β → Bool) (q : α → Bool)
    (h : ∀ a, p (f a) = true → q a = true) (l : List α) :
    (l.map f).filter p = ((l.filter q).map f).filter p := by
  induction l with
  | nil => rfl
  | cons a t ih =>
    simp only [List.map_cons, List.filter_cons]
    cases hpa : p (f a) with
    | false =>
      cases hqa : q a with
      | false => simpa [hpa] using ih
      | true => simp [hpa, hqa, ih]
    | true => simp [hpa, h a hpa, ih]

/-- The busy pipeline ignores events whose `start` or `end` does not parse
(NaN comparisons are false, so the window filter discards them). -/
theorem busyBlocksOf_parseable (parse : String → Option ℚ) (events : List Event)
    (workStart workEnd : Option ℚ) :
    busyBlocksOf parse events workStart workEnd =
      busyBlocksOf parse
        (events.filter (fun ev => (parse ev.start).isSome && (parse ev.«end»).isSome))
        workStart workEnd := by
  unfold busyBlocksOf
  have hcomm :
      (events.filter (fun ev => (parse ev.start).isSome && (parse ev.«end»).isSome)).filter
          (fun ev => !ev.allDay) =
        (events.filter (fun ev => !ev.allDay)).filter
          (fun ev => (parse ev.start).isSome && (parse ev.«end»).isSome) := by
    rw [List.filter_comm]
  rw [hcomm]
  have := filter_map_comm (toRawBusy parse)
    (fun b => jsGt b.«end» workStart && jsLt b.start workEnd)
    (fun ev => (parse ev.start).isSome && (parse ev.«end»).isSome)
    (fun ev hev => by
      rw [Bool.and_eq_true] at hev
      obtain ⟨hgt, hlt⟩ := hev
      rw [jsGt_eq_true_iff] at hgt
      rw [jsLt_eq_true_iff] at hlt
      obtain ⟨e, w₁, he, -, -⟩ := hgt
      obtain ⟨s, w₂, hs, -, -⟩ := hlt
      simp only [toRawBusy] at he hs
      simp [hs, he])
    (events.filter (fun ev => !ev.allDay))
  rw [this]

/-- C8 counterexample: an event with an unparseable `end` is silently
discarded — the day still analyzes successfully to a single full free block;
no failure of any kind is produced for the event. -/
theorem C8_counterexample :
    parseDemo evBadEnd.«end» = none ∧
    analyzeDayBlocks parseDemo [evBadEnd] "2025-01-06" cfgDemo =
      [buildFreeBlock (some 0) (some 36000000)] ∧
    (buildFreeBlock (some 0) (some 36000000)).duration = some 600 := by
  refine ⟨rfl, ?_, by norm_num [buildFreeBlock, msToMin, jsSub]⟩
  have hbusy : busyBlocksOf parseDemo [evBadEnd] (some 0) (some 36000000) = [] := by
    simp [busyBlocksOf, toRawBusy, parseDemo, demoTable, evBadEnd, jsGt, jsLt]
  show walk 60 (some 36000000) (some 0)
      (busyBlocksOf parseDemo [evBadEnd] (some 0) (some 36000000)) = _
  rw [hbusy]
  simp only [walk]
  norm_num [buildFreeBlock, msToMin, jsSub, jsGt, jsLt]

/-- C8 amended: the Block Builder never fails on an unparseable timestamp;
an event whose `start` or `end` does not parse is silently dropped — the
output equals the output on the event list with those events removed. -/
theorem C8_unparseable_amended (parse : String → Option ℚ) (events : List Event)
    (date : String) (config : AnalyzerConfig) :
    analyzeDayBlocks parse events date config =
      analyzeDayBlocks parse
        (events.filter (fun ev => (parse ev.start).isSome && (parse ev.«end»).isSome))
        date config :=
  congrArg
    (walk config.maxStandardBlockMinutes (parse (date ++ "T" ++ config.workdayEnd ++ ":00"))
      (parse (date ++ "T" ++ config.workdayStart ++ ":00")))
    (busyBlocksOf_parseable parse events
      (parse (date ++ "T" ++ config.workdayStart ++ ":00"))
      (parse (date ++ "T" ++ config.workdayEnd ++ ":00")))

/-! ## C1/C2: tiling of the workday window -/

/-- Boolean chain certificate on final blocks: starting from `cur`, each
block starts exactly at the running point and ends no earlier, and the run
finishes exactly at `workEnd` — i.e. the blocks tile `[cur, workEnd)` with
no gaps and no overlaps. -/
def chainedFromB (workEnd : ℚ) : ℚ → List Block → Bool
  | cur, [] => decide (cur = workEnd)
  | cur, b :: rest =>
      match b.startD, b.endD with
      | some s, some e => decide (s = cur) && decide (cur ≤ e) && chainedFromB workEnd e rest
      | _, _ => false

/-- Well-formedness of a clipped busy list relative to the window: each
block is parsed, ordered after the running point, and ends within
`workEnd`. -/
def GoodChain (workEnd : ℚ) : ℚ → List RawBlock → Prop
  | _, [] => True
  | cur, b :: rest => ∃ s e, b.start = some s ∧ b.«end» = some e ∧
      cur ≤ s ∧ s ≤ e ∧ e ≤ workEnd ∧ GoodChain workEnd e rest

def optPrevLe : Option ℚ → ℚ → Bool
  | none, _ => true
  | some p, s => decide (p ≤ s)

/-- Certificate that a raw busy list is sorted and pairwise non-overlapping:
every parsed entry has `start ≤ end` and starts no earlier than the previous
parsed entry ended; entries with an unparseable endpoint are skipped. -/
def RawChainB : Option ℚ → List RawBlock → Bool
  | _, [] => true
  | prev, b :: rest =>
      match b.start, b.«end» with
      | some s, some e => decide (s ≤ e) && optPrevLe prev s && RawChainB (some e) rest
      | _, _ => RawChainB prev rest

def prevBound (ws : ℚ) : Option ℚ → ℚ
  | none => ws
  | some p => max p ws

/-- The cursor walk over a well-chained clipped busy list tiles
`[cur, workEnd)` exactly. -/
theorem walk_chained (maxStd we : ℚ) :
    ∀ (bs : List RawBlock) (cur : ℚ), cur ≤ we → GoodChain we cur bs →
      chainedFromB we cur (walk maxStd (some we) (some cur) bs) = true := by
  intro bs
  induction bs with
  | nil =>
    intro cur hcw _
    simp only [walk]
    by_cases h : cur < we
    · have hpos : (0 : ℚ) < (we - cur) / 60000 := div_pos (by linarith) (by norm_num)
      simp [chainedFromB, buildFreeBlock, msToMin, jsSub, jsGt, jsLt, h, hpos, hcw]
    · have hcurwe : cur = we := le_antisymm hcw (not_lt.1 h)
      simp [chainedFromB, jsLt, h, hcurwe]
  | cons b rest ih =>
    intro cur hcw hgood
    obtain ⟨s, e, hbs, hbe, hcs, hse, hew, hrest⟩ := hgood
    have ihe := ih e hew hrest
    simp only [walk, hbs, hbe]
    by_cases hlt : cur < s
    · have hpos : (0 : ℚ) < (s - cur) / 60000 := div_pos (by linarith) (by norm_num)
      simp [chainedFromB, buildFreeBlock, buildBusyBlock, msToMin, jsSub, jsGt, jsLt,
        hlt, hpos, hbs, hbe, hcs, hse, le_of_lt hlt, ihe]
    · have hs' : s = cur := le_antisymm (not_lt.1 hlt) hcs
      simp [chainedFromB, buildBusyBlock, jsGt, jsLt, hlt, hbs, hbe, hs', hse, ihe,
        hs' ▸ hse]

/-- Window filtering and clipping of a sorted, non-overlapping raw list
yields a well-chained clipped list. -/
theorem rawChain_goodChain (ws we : ℚ) (hww : ws < we) :
    ∀ (raws : List RawBlock) (prev : Option ℚ) (cur : ℚ),
      ws ≤ cur → cur ≤ we → cur ≤ prevBound ws prev →
      RawChainB prev raws = true →
      GoodChain we cur
        ((raws.filter (fun b => jsGt b.«end» (some ws) && jsLt b.start (some we))).map
          (clipBlock (some ws) (some we))) := by
  intro raws
  induction raws with
  | nil =>
    intro prev cur _ _ _ _
    simp [GoodChain]
  | cons b raws ih =>
    intro prev cur hwc hcw hbound hchain
    rcases hbs : b.start with _ | s <;> rcases hbe : b.«end» with _ | e
    · simp only [RawChainB, hbs, hbe] at hchain
      simpa [List.filter_cons, hbs, hbe, jsGt, jsLt] using ih prev cur hwc hcw hbound hchain
    · simp only [RawChainB, hbs, hbe] at hchain
      simpa [List.filter_cons, hbs, hbe, jsGt, jsLt] using ih prev cur hwc hcw hbound hchain
    · simp only [RawChainB, hbs, hbe] at hchain
      simpa [List.filter_cons, hbs, hbe, jsGt, jsLt] using ih prev cur hwc hcw hbound hchain
    · simp only [RawChainB, hbs, hbe, Bool.and_eq_true, decide_eq_true_eq] at hchain
      obtain ⟨⟨hse, hps⟩, hrest⟩ := hchain
      by_cases hcond : ws < e ∧ s < we
      · have hfc : (jsGt b.«end» (some ws) && jsLt b.start (some we)) = true := by
          simp [hbs, hbe, jsGt, jsLt, hcond.1, hcond.2]
        rw [show List.filter (fun b => jsGt b.«end» (some ws) && jsLt b.start (some we))
              (b :: raws) =
            b :: List.filter (fun b => jsGt b.«end» (some ws) && jsLt b.start (some we)) raws
          from by rw [List.filter_cons, if_pos hfc], List.map_cons]
        refine ⟨max s ws, min e we, ?_, ?_, ?_, ?_, min_le_right _ _, ?_⟩
        · simp [clipBlock, hbs, hbe]
        · simp [clipBlock, hbs, hbe]
        · rcases prev with - | p
          · exact le_trans (by simpa [prevBound] using hbound) (le_max_right _ _)
          · have hp : p ≤ s := by simpa [optPrevLe] using hps
            exact le_trans (by simpa [prevBound] using hbound)
              (max_le_max hp le_rfl)
        · exact max_le (le_min hse (le_of_lt hcond.2))
            (le_min (le_of_lt hcond.1) (le_of_lt hww))
        · exact ih (some e) (min e we)
            (le_min (le_of_lt hcond.1) (le_of_lt hww)) (min_le_right _ _)
            (le_trans (min_le_left e we) (le_max_left e ws)) hrest
      · have hfc : (jsGt b.«end» (some ws) && jsLt b.start (some we)) = false := by
          rcases not_and_or.1 hcond with hh | hh
          · simp [hbs, hbe, jsGt, jsLt, hh]
          · simp [hbs, hbe, jsGt, jsLt, hh]
        rw [show List.filter (fun b => jsGt b.«end» (some ws) && jsLt b.start (some we))
              (b :: raws) =
            List.filter (fun b => jsGt b.«end» (some ws) && jsLt b.start (some we)) raws
          from by rw [List.filter_cons, if_neg (by simp [hfc])]]
        refine ih (some e) cur hwc hcw ?_ hrest
        rcases not_and_or.1 hcond with hh | hh
        · have he' : e ≤ ws := not_lt.1 hh
          have hcur : cur ≤ ws := by
            rcases prev with - | p
            · simpa [prevBound] using hbound
            · have hp : p ≤ s := by simpa [optPrevLe] using hps
              have : max p ws ≤ ws := max_le (by linarith) le_rfl
              exact le_trans (by simpa [prevBound] using hbound) this
          simp only [prevBound]
          exact le_trans hcur (le_max_right _ _)
        · have hs' : we ≤ s := not_lt.1 hh
          simp only [prevBound]
          exact le_trans hcw (le_trans (le_trans hs' hse) (le_max_left _ _))

/-- Under a parsed workday window and a sorted, non-overlapping raw busy
list, `analyzeDayBlocks` tiles `[workStart, workEnd)` exactly. -/
theorem analyzeDayBlocks_chained (parse : String → Option ℚ) (events : List Event)
    (date : String) (config : AnalyzerConfig) (ws we : ℚ)
    (hws : parse (date ++ "T" ++ config.workdayStart ++ ":00") = some ws)
    (hwe : parse (date ++ "T" ++ config.workdayEnd ++ ":00") = some we)
    (hlt : ws < we)
    (hchain : RawChainB none
      ((events.filter (fun ev => !ev.allDay)).map (toRawBusy parse)) = true) :
    chainedFromB we ws (analyzeDayBlocks parse events date config) = true := by
  have hgc := rawChain_goodChain ws we hlt
    ((events.filter (fun ev => !ev.allDay)).map (toRawBusy parse)) none ws
    le_rfl (le_of_lt hlt) (by simp [prevBound]) hchain
  have hw := walk_chained config.maxStandardBlockMinutes we _ ws (le_of_lt hlt) hgc
  simp only [analyzeDayBlocks, hws, hwe]
  exact hw

theorem chainedFromB_start_ge (we : ℚ) :
    ∀ (bs : List Block) (cur : ℚ), chainedFromB we cur bs = true →
      ∀ c ∈ bs, ∃ y, c.startD = some y ∧ cur ≤ y := by
  intro bs
  induction bs with
  | nil => intro cur _ c hc; simp at hc
  | cons b rest ih =>
    intro cur h c hc
    rcases hbs : b.startD with - | s <;> rcases hbe : b.endD with - | e <;>
      simp only [chainedFromB, hbs, hbe] at h
    · exact Bool.noConfusion h
    · exact Bool.noConfusion h
    · exact Bool.noConfusion h
    · rw [Bool.and_eq_true, Bool.and_eq_true, decide_eq_true_eq, decide_eq_true_eq] at h
      obtain ⟨⟨hsc, hce⟩, hrest⟩ := h
      rcases List.mem_cons.1 hc with rfl | hc
      · exact ⟨s, hbs, le_of_eq hsc.symm⟩
      · obtain ⟨y, hy, hey⟩ := ih e hrest c hc
        exact ⟨y, hy, le_trans hce hey⟩

/-- A chained block list is pairwise interval-ordered: every earlier block
ends no later than every later block starts. -/
theorem chainedFromB_pairwise (we : ℚ) :
    ∀ (bs : List Block) (cur : ℚ), chainedFromB we cur bs = true →
      bs.Pairwise (fun a c => ∃ x y, a.endD = some x ∧ c.startD = some y ∧ x ≤ y) := by
  intro bs
  induction bs with
  | nil => intro cur _; exact List.Pairwise.nil
  | cons b rest ih =>
    intro cur h
    rcases hbs : b.startD with - | s <;> rcases hbe : b.endD with - | e <;>
      simp only [chainedFromB, hbs, hbe] at h
    · exact Bool.noConfusion h
    · exact Bool.noConfusion h
    · exact Bool.noConfusion h
    · rw [Bool.and_eq_true, Bool.and_eq_true, decide_eq_true_eq, decide_eq_true_eq] at h
      obtain ⟨⟨-, -⟩, hrest⟩ := h
      refine List.Pairwise.cons ?_ (ih e hrest)
      intro c hc
      obtain ⟨y, hy, hey⟩ := chainedFromB_start_ge we rest e hrest c hc
      exact ⟨e, y, hbe, hy, hey⟩

/-- Shared evaluation: the demonstration day with two overlapping meetings
(09:00–12:00 and 10:00–11:00 inside it). The cursor is set to each event's
`end` (not the max), so after the nested meeting the final free block starts
at 11:00, inside the still-running 09:00–12:00 block. -/
theorem analyzeDayBlocks_overlap_eval :
    analyzeDayBlocks parseDemo [evBig, evSmall] "2025-01-06" cfgDemo =
      [buildFreeBlock (some 0) (some 7200000),
       buildBusyBlock { title := "Big", start := some 7200000, «end» := some 18000000 } 60,
       buildBusyBlock { title := "Small", start := some 10800000, «end» := some 14400000 } 60,
       buildFreeBlock (some 14400000) (some 36000000)] := by
  have hbusy : busyBlocksOf parseDemo [evBig, evSmall] (some 0) (some 36000000) =
      [{ title := "Big", start := some 7200000, «end» := some 18000000 },
       { title := "Small", start := some 10800000, «end» := some 14400000 }] := by
    simp [busyBlocksOf, toRawBusy, parseDemo, demoTable, evBig, evSmall]
    norm_num [jsGt, jsLt, clipBlock, jsMax, jsMin]
  show walk 60 (some 36000000) (some 0)
      (busyBlocksOf parseDemo [evBig, evSmall] (some 0) (some 36000000)) = _
  rw [hbusy]
  simp only [walk]
  norm_num [buildFreeBlock, buildBusyBlock, msToMin, jsSub, jsGt, jsLt]

/-- C1 counterexample: with two overlapping events the emitted blocks do not
tile the workday — the chain certificate fails on the output even though the
window is valid (`0 < 36000000`) and both its endpoints parse. -/
theorem C1_counterexample :
    parseDemo "2025-01-06T07:00:00" = some 0 ∧
    parseDemo "2025-01-06T17:00:00" = some 36000000 ∧
    ((0 : ℚ) < 36000000) ∧
    chainedFromB 36000000 0
      (analyzeDayBlocks parseDemo [evBig, evSmall] "2025-01-06" cfgDemo) = false := by
  refine ⟨rfl, rfl, by norm_num, ?_⟩
  rw [analyzeDayBlocks_overlap_eval]
  norm_num [chainedFromB, buildFreeBlock, buildBusyBlock, msToMin, jsSub]

/-- C1 amended: provided the surviving (non-all-day, parsed) events are
sorted and pairwise non-overlapping (`RawChainB`), the block sequence of
`analyzeDayBlocks` exactly tiles `[workStart, workEnd)`: the first block
starts at `workStart`, consecutive blocks are contiguous, the last block
ends at `workEnd`, and no two blocks overlap. -/
theorem C1_tiling_amended (parse : String → Option ℚ) (events : List Event)
    (date : String) (config : AnalyzerConfig) (ws we : ℚ)
    (hws : parse (date ++ "T" ++ config.workdayStart ++ ":00") = some ws)
    (hwe : parse (date ++ "T" ++ config.workdayEnd ++ ":00") = some we)
    (hlt : ws < we)
    (hchain : RawChainB none
      ((events.filter (fun ev => !ev.allDay)).map (toRawBusy parse)) = true) :
    chainedFromB we ws (analyzeDayBlocks parse events date config) = true :=
  analyzeDayBlocks_chained parse events date config ws we hws hwe hlt hchain

theorem C1_tiling_amended_witness :
    parseDemo ("2025-01-06" ++ "T" ++ cfgDemo.workdayStart ++ ":00") = some 0 ∧
    parseDemo ("2025-01-06" ++ "T" ++ cfgDemo.workdayEnd ++ ":00") = some 36000000 ∧
    ((0 : ℚ) < 36000000) ∧
    RawChainB none
      ((([evBig, evAfternoon].filter (fun ev => !ev.allDay)).map (toRawBusy parseDemo))) = true ∧
    chainedFromB 36000000 0
      (analyzeDayBlocks parseDemo [evBig, evAfternoon] "2025-01-06" cfgDemo) = true := by
  have hch : RawChainB none
      ((([evBig, evAfternoon].filter (fun ev => !ev.allDay)).map (toRawBusy parseDemo))) = true := by
    simp [toRawBusy, parseDemo, demoTable, evBig, evAfternoon]
    norm_num [RawChainB, optPrevLe]
  exact ⟨rfl, rfl, by norm_num, hch,
    C1_tiling_amended parseDemo [evBig, evAfternoon] "2025-01-06" cfgDemo 0 36000000
      rfl rfl (by norm_num) hch⟩

/-- C2 counterexample: with the nested-meeting input the cursor moves
backward (it is set to `event.end`, not `max(cursor, event.end)`): the final
free block starts at 11:00 (14400000 ms), strictly inside the earlier busy
block that runs until 12:00 (18000000 ms) — a Free block over an interval
already covered by a Busy block. -/
theorem C2_counterexample :
    ((analyzeDayBlocks parseDemo [evBig, evSmall] "2025-01-06" cfgDemo).getD 1
        (buildFreeBlock none none)).type = "busy" ∧
    ((analyzeDayBlocks parseDemo [evBig, evSmall] "2025-01-06" cfgDemo).getD 1
        (buildFreeBlock none none)).endD = some 18000000 ∧
    ((analyzeDayBlocks parseDemo [evBig, evSmall] "2025-01-06" cfgDemo).getD 3
        (buildFreeBlock none none)).type = "free" ∧
    ((analyzeDayBlocks parseDemo [evBig, evSmall] "2025-01-06" cfgDemo).getD 3
        (buildFreeBlock none none)).startD = some 14400000 ∧
    ((14400000 : ℚ) < 18000000) := by
  refine ⟨?_, ?_, ?_, ?_, by norm_num⟩ <;>
    (rw [analyzeDayBlocks_overlap_eval]
     norm_num [buildFreeBlock, buildBusyBlock, msToMin, jsSub, List.getD])

/-- C2 amended: the cursor is set to `event.end` (it can move backward on
overlapping events, as the counterexample shows); when the surviving events
are sorted and pairwise non-overlapping, the emitted blocks are pairwise
interval-ordered — in particular no Free block is ever emitted over an
interval already covered by an earlier Busy block. -/
theorem C2_no_free_over_busy_amended (parse : String → Option ℚ)
    (events : List Event) (date : String) (config : AnalyzerConfig) (ws we : ℚ)
    (hws : parse (date ++ "T" ++ config.workdayStart ++ ":00") = some ws)
    (hwe : parse (date ++ "T" ++ config.workdayEnd ++ ":00") = some we)
    (hlt : ws < we)
    (hchain : RawChainB none
      ((events.filter (fun ev => !ev.allDay)).map (toRawBusy parse)) = true) :
    (analyzeDayBlocks parse events date config).Pairwise
      (fun a c => ∃ x y, a.endD = some x ∧ c.startD = some y ∧ x ≤ y) :=
  chainedFromB_pairwise we (analyzeDayBlocks parse events date config) ws
    (analyzeDayBlocks_chained parse events date config ws we hws hwe hlt hchain)

theorem C2_no_free_over_busy_amended_witness :
    parseDemo ("2025-01-06" ++ "T" ++ cfgDemo.workdayStart ++ ":00") = some 0 ∧
    parseDemo ("2025-01-06" ++ "T" ++ cfgDemo.workdayEnd ++ ":00") = some 36000000 ∧
    ((0 : ℚ) < 36000000) ∧
    RawChainB none
      ((([evSmall, evAfternoon].filter (fun ev => !ev.allDay)).map (toRawBusy parseDemo))) = true ∧
    (analyzeDayBlocks parseDemo [evSmall, evAfternoon] "2025-01-06" cfgDemo).Pairwise
      (fun a c => ∃ x y, a.endD = some x ∧ c.startD = some y ∧ x ≤ y) := by
  have hch : RawChainB none
      ((([evSmall, evAfternoon].filter (fun ev => !ev.allDay)).map (toRawBusy parseDemo))) = true := by
    simp [toRawBusy, parseDemo, demoTable, evSmall, evAfternoon]
    norm_num [RawChainB, optPrevLe]
  exact ⟨rfl, rfl, by norm_num, hch,
    C2_no_free_over_busy_amended parseDemo [evSmall, evAfternoon] "2025-01-06" cfgDemo
      0 36000000 rfl rfl (by norm_num) hch⟩

/-! ## Properties of the split model -/

theorem splitFirst_some_length {sep : List Char} (hsep : sep ≠ []) :
    ∀ {s pre post : List Char}, splitFirst sep s = some (pre, post) →
      post.length < s.length := by
  intro s
  induction s with
  | nil => intro pre post h; simp [splitFirst] at h
  | cons c rest ih =>
    intro pre post h
    rw [splitFirst] at h
    split at h
    · rw [Option.some.injEq, Prod.mk.injEq] at h
      obtain ⟨-, h2⟩ := h
      subst h2
      have hlen : 1 ≤ sep.length := List.length_pos.2 hsep
      rw [List.length_drop]
      simp only [List.length_cons]
      omega
    · split at h
      · rename_i pre' post' heq
        rw [Option.some.injEq, Prod.mk.injEq] at h
        obtain ⟨-, h2⟩ := h
        subst h2
        have := ih heq
        simp only [List.length_cons]
        omega
      · exact absurd h (by simp)

theorem jsSplit_none {sep s : List Char} (h : splitFirst sep s = none) :
    jsSplit sep s = [s] := by
  unfold jsSplit
  cases hl : s.length with
  | zero => rfl
  | succ k => simp [jsSplitFuel, h]

theorem splitFirst_nonempty {sep s : List Char} {pr : List Char × List Char}
    (h : splitFirst sep s = some pr) : s ≠ [] := by
  intro h0
  subst h0
  simp [splitFirst] at h

theorem jsSplitFuel_stable {sep : List Char} (hsep : sep ≠ []) :
    ∀ (n : Nat) (s : List Char), s.length ≤ n → jsSplitFuel sep n s = jsSplit sep s := by
  intro n
  induction n using Nat.strong_induction_on with
  | _ n ih =>
    match n with
    | 0 =>
      intro s hs
      have h0 : s = [] := List.length_eq_zero.1 (Nat.le_zero.1 hs)
      subst h0
      rfl
    | n + 1 =>
      intro s hs
      cases hsp : splitFirst sep s with
      | none => simp [jsSplitFuel, hsp, jsSplit_none hsp]
      | some pr =>
        obtain ⟨pre, post⟩ := pr
        have hlen := splitFirst_some_length hsep hsp
        have hs0 : s ≠ [] := splitFirst_nonempty hsp
        obtain ⟨k, hk⟩ : ∃ k, s.length = k + 1 := by
          have : 0 < s.length := List.length_pos.2 hs0
          exact ⟨s.length - 1, by omega⟩
        have h1 : jsSplitFuel sep n post = jsSplit sep post :=
          ih n (Nat.lt_succ_self n) post (by omega)
        have h2 : jsSplitFuel sep k post = jsSplit sep post :=
          ih k (by omega) post (by omega)
        calc jsSplitFuel sep (n + 1) s = pre :: jsSplitFuel sep n post := by
              simp [jsSplitFuel, hsp]
          _ = pre :: jsSplitFuel sep k post := by rw [h1, h2]
          _ = jsSplitFuel sep (k + 1) s := by simp [jsSplitFuel, hsp]
          _ = jsSplit sep s := by rw [jsSplit, hk]

theorem jsSplit_cons {sep s pre post : List Char} (hsep : sep ≠ [])
    (h : splitFirst sep s = some (pre, post)) :
    jsSplit sep s = pre :: jsSplit sep post := by
  have hlen := splitFirst_some_length hsep h
  have hs0 : s ≠ [] := splitFirst_nonempty h
  obtain ⟨k, hk⟩ : ∃ k, s.length = k + 1 := by
    have : 0 < s.length := List.length_pos.2 hs0
    exact ⟨s.length - 1, by omega⟩
  rw [jsSplit, hk]
  simp only [jsSplitFuel, h]
  rw [jsSplitFuel_stable hsep k post (by omega)]

/-- Splitting a key built by joining with `"__"` finds the inserted
separator first, provided the left part has no `"__"` occurrence and does
not end in `'_'`. -/
theorem splitFirst_boundary :
    ∀ (cid : List Char) (d : List Char),
      splitFirst ['_', '_'] cid = none → cid.getLast? ≠ some '_' →
      splitFirst ['_', '_'] (cid ++ '_' :: '_' :: d) = some (cid, d) := by
  intro cid
  induction cid with
  | nil =>
    intro d _ _
    simp [splitFirst, List.isPrefixOf]
  | cons c rest ih =>
    intro d h1 h2
    rw [splitFirst] at h1
    have hnp : ¬ ((['_', '_'] : List Char).isPrefixOf (c :: rest)) := by
      intro hp
      rw [if_pos hp] at h1
      exact Option.noConfusion h1
    have h1' : splitFirst ['_', '_'] rest = none := by
      rw [if_neg hnp] at h1
      cases hrest : splitFirst ['_', '_'] rest with
      | none => rfl
      | some pr =>
        obtain ⟨a, b⟩ := pr
        rw [hrest] at h1
        exact absurd h1 (by simp)
    have h2' : rest.getLast? ≠ some '_' := by
      cases rest with
      | nil => simp
      | cons r rs =>
        rw [List.getLast?_cons_cons] at h2
        exact h2
    have hnp2 : ¬ ((['_', '_'] : List Char).isPrefixOf (c :: (rest ++ '_' :: '_' :: d))) := by
      by_cases hc : c = '_'
      · subst hc
        cases rest with
        | nil =>
          exact absurd rfl h2
        | cons r rs =>
          by_cases hr : r = '_'
          · subst hr
            exact absurd (by simp [List.isPrefixOf]) hnp
          · intro hp
            simp only [List.cons_append, List.isPrefixOf, Bool.and_eq_true, beq_iff_eq] at hp
            exact hr hp.2.1.symm
      · intro hp
        simp only [List.isPrefixOf, Bool.and_eq_true, beq_iff_eq] at hp
        exact hc hp.1.symm
    show splitFirst ['_', '_'] (c :: (rest ++ '_' :: '_' :: d)) = some (c :: rest, d)
    rw [splitFirst, if_neg hnp2, ih d h1' h2']

/-- No occurrence of `"__"` in the string. -/
def noUU (s : String) : Bool := decide (splitFirst ['_', '_'] s.data = none)

/-- The string ends with `'_'`. -/
def endsUnderscore (s : String) : Bool := decide (s.data.getLast? = some '_')

/-- Calendar ids whose group key splits back to themselves: no `"__"` inside
and no trailing `'_'` (a trailing `'_'` would merge with the separator). -/
def wfCalendarId (s : String) : Bool := noUU s && !endsUnderscore s

/-- Splitting the composite key recovers its two components when the left
part is well-formed and the right part has no `"__"`. -/
theorem parseGroupKey_append (u d : String) (hu : wfCalendarId u = true)
    (hd : noUU d = true) : parseGroupKey (u ++ "__" ++ d) = (u, d) := by
  rw [wfCalendarId, Bool.and_eq_true] at hu
  obtain ⟨hu1, hu2⟩ := hu
  rw [noUU, decide_eq_true_eq] at hu1
  rw [Bool.not_eq_true', endsUnderscore, decide_eq_false_iff_not] at hu2
  rw [noUU, decide_eq_true_eq] at hd
  have hdata : (u ++ "__" ++ d).data = u.data ++ '_' :: '_' :: d.data := by
    have h1 : (u ++ "__" ++ d).data = u.data ++ "__".data ++ d.data := by
      rw [String.data_append, String.data_append]
    rw [h1]
    have h2 : "__".data = ['_', '_'] := rfl
    rw [h2, List.append_assoc]
    rfl
  have hsplit : splitFirst ['_', '_'] ((u ++ "__" ++ d).data) = some (u.data, d.data) := by
    rw [hdata]
    exact splitFirst_boundary u.data d.data hu1 hu2
  have hsep : (['_', '_'] : List Char) ≠ [] := by simp
  have hjs : jsSplit ['_', '_'] ((u ++ "__" ++ d).data) = u.data :: jsSplit ['_', '_'] d.data :=
    jsSplit_cons hsep hsplit
  rw [jsSplit_none hd] at hjs
  rw [parseGroupKey, jsSplitStr]
  have hlist : "__".toList = ['_', '_'] := rfl
  rw [show (u ++ "__" ++ d).toList = (u ++ "__" ++ d).data from rfl, hlist, hjs]
  rfl

/-! ## Grouping-map lemmas -/

/-- The key list of the grouping object, in insertion order. -/
def keys (m : List (String × List Event)) : List String := m.map Prod.fst

/-- Lookup of the group of `k` (first matching entry; `[]` when absent). -/
def assocGet (m : List (String × List Event)) (k : String) : List Event :=
  ((m.find? (fun g => g.1 == k)).map Prod.snd).getD []

/-- The events the grouping loop files under key `k`: non-skipped events
whose composite key is `k`. -/
def matchesKey (k : String) (ev : Event) : Bool :=
  !(ev.start == "" || ev.«end» == "") && (groupKeyOf ev == k)

theorem assocGet_insertGroup (key : String) (ev : Event) :
    ∀ (m : List (String × List Event)) (k : String),
      assocGet (insertGroup key ev m) k =
        if k = key then assocGet m k ++ [ev] else assocGet m k := by
  intro m
  induction m with
  | nil =>
    intro k
    by_cases hk : k = key
    · subst hk
      simp [insertGroup, assocGet]
    · simp [insertGroup, assocGet, hk, Ne.symm hk]
  | cons g m ih =>
    intro k
    obtain ⟨k', evs⟩ := g
    rw [insertGroup]
    by_cases h1 : k' = key
    · rw [if_pos h1]
      subst h1
      by_cases h2 : k = k'
      · subst h2
        simp [assocGet]
      · simp [assocGet, Ne.symm h2, h2]
    · rw [if_neg h1]
      by_cases h3 : k' = k
      · subst h3
        have h4 : ¬ k' = key := h1
        simp [assocGet, if_neg h4]
      · have h5 : (k' == k) = false := by
          simp [h3]
        simp only [assocGet, List.find?_cons, h5]
        exact ih k

theorem keys_insertGroup (key : String) (ev : Event) :
    ∀ m, keys (insertGroup key ev m) =
      if key ∈ keys m then keys m else keys m ++ [key] := by
  intro m
  induction m with
  | nil => simp [insertGroup, keys]
  | cons g m ih =>
    obtain ⟨k', evs⟩ := g
    by_cases h : k' = key
    · subst h
      simp [insertGroup, keys]
    · rw [insertGroup, if_neg h]
      have hne : ¬ key = k' := Ne.symm h
      have hkeys : keys ((k', evs) :: insertGroup key ev m) =
          k' :: keys (insertGroup key ev m) := rfl
      rw [hkeys, ih]
      have hcons : (key ∈ keys ((k', evs) :: m)) ↔ key ∈ keys m := by
        simp [keys, hne]
      by_cases hmem : key ∈ keys m
      · rw [if_pos hmem, if_pos (hcons.mpr hmem)]
        rfl
      · rw [if_neg hmem, if_neg (fun hx => hmem (hcons.mp hx))]
        rfl

theorem keys_nodup_insertGroup (key : String) (ev : Event)
    (m : List (String × List Event)) (h : (keys m).Nodup) :
    (keys (insertGroup key ev m)).Nodup := by
  rw [keys_insertGroup]
  split
  · exact h
  · rename_i hmem
    simp [List.nodup_append, h, hmem]

theorem entries_ne_insertGroup (key : String) (ev : Event) :
    ∀ m, (∀ g ∈ m, g.2 ≠ []) → ∀ g ∈ insertGroup key ev m, g.2 ≠ [] := by
  intro m
  induction m with
  | nil =>
    intro _ g hg
    simp [insertGroup] at hg
    subst hg
    simp
  | cons g₀ m ih =>
    intro h g hg
    obtain ⟨k', evs⟩ := g₀
    rw [insertGroup] at hg
    split at hg
    · rcases List.mem_cons.1 hg with rfl | hg'
      · simp
      · exact h g (List.mem_cons_of_mem _ hg')
    · rcases List.mem_cons.1 hg with rfl | hg'
      · exact h (k', evs) (List.mem_cons_self _ _)
      · exact ih (fun g' hg' => h g' (List.mem_cons_of_mem _ hg')) g hg'

theorem mem_keys_iff_assocGet (k : String) :
    ∀ m, (∀ g ∈ m, g.2 ≠ []) → (k ∈ keys m ↔ assocGet m k ≠ []) := by
  intro m
  induction m with
  | nil => intro _; simp [keys, assocGet]
  | cons g m ih =>
    intro h
    obtain ⟨k', evs⟩ := g
    by_cases hk : k' = k
    · subst hk
      have hne : evs ≠ [] := by
        have := h (k', evs) (List.mem_cons_self _ _)
        simpa using this
      simp [keys, assocGet, hne]
    · have h5 : (k' == k) = false := by simp [hk]
      have hrest := ih (fun g' hg' => h g' (List.mem_cons_of_mem _ hg'))
      simp only [keys, List.map_cons, List.mem_cons, assocGet, List.find?_cons, h5]
      rw [← keys, ← assocGet]
      constructor
      · intro hx
        rcases hx with hx | hx
        · exact absurd hx.symm hk
        · exact hrest.1 hx
      · intro hx
        exact Or.inr (hrest.2 hx)

theorem groupFold_spec :
    ∀ (events : List Event) (m : List (String × List Event)),
      (keys m).Nodup → (∀ g ∈ m, g.2 ≠ []) →
      (keys (events.foldl groupStep m)).Nodup ∧
      (∀ g ∈ events.foldl groupStep m, g.2 ≠ []) ∧
      (∀ k, assocGet (events.foldl groupStep m) k =
        assocGet m k ++ events.filter (matchesKey k)) := by
  intro events
  induction events with
  | nil =>
    intro m h1 h2
    exact ⟨h1, h2, fun k => by simp⟩
  | cons ev evs ih =>
    intro m h1 h2
    rw [List.foldl_cons]
    by_cases hv : ev.start = "" ∨ ev.«end» = ""
    · have hstep : groupStep m ev = m := by
        rcases hv with hv | hv <;> simp [groupStep, hv]
      have hmk : ∀ k, matchesKey k ev = false := by
        intro k
        rcases hv with hv | hv <;> simp [matchesKey, hv]
      rw [hstep]
      obtain ⟨g1, g2, g3⟩ := ih m h1 h2
      exact ⟨g1, g2, fun k => by rw [g3 k, List.filter_cons, hmk k]; simp⟩
    · push_neg at hv
      have hstep : groupStep m ev = insertGroup (groupKeyOf ev) ev m := by
        simp [groupStep, hv.1, hv.2]
      rw [hstep]
      obtain ⟨g1, g2, g3⟩ := ih (insertGroup (groupKeyOf ev) ev m)
        (keys_nodup_insertGroup _ _ _ h1) (entries_ne_insertGroup _ _ _ h2)
      refine ⟨g1, g2, fun k => ?_⟩
      rw [g3 k, assocGet_insertGroup, List.filter_cons]
      by_cases hk : groupKeyOf ev = k
      · have hmk : matchesKey k ev = true := by
          simp [matchesKey, hv.1, hv.2, hk]
        rw [if_pos hk.symm, hmk]
        simp
      · have hmk : matchesKey k ev = false := by
          simp [matchesKey, hk]
        rw [if_neg (fun hx => hk hx.symm), hmk]
        simp

theorem filter_keys_eq (k₀ : String) :
    ∀ m, (keys m).Nodup →
      m.filter (fun g => g.1 == k₀) =
        if k₀ ∈ keys m then [(k₀, assocGet m k₀)] else [] := by
  intro m
  induction m with
  | nil => intro _; simp [keys]
  | cons g m ih =>
    intro hnd
    obtain ⟨k', evs⟩ := g
    have hnd' : (keys m).Nodup := (List.nodup_cons.1 hnd).2
    have hk'n : k' ∉ keys m := (List.nodup_cons.1 hnd).1
    by_cases hk : k' = k₀
    · subst hk
      rw [List.filter_cons]
      rw [if_pos (by simp), ih hnd', if_neg hk'n]
      have hmem : k' ∈ keys ((k', evs) :: m) := by simp [keys]
      rw [if_pos hmem]
      simp [assocGet]
    · rw [List.filter_cons, if_neg (by simp [hk]), ih hnd']
      have h5 : (k' == k₀) = false := by simp [hk]
      have hge : assocGet ((k', evs) :: m) k₀ = assocGet m k₀ := by
        simp only [assocGet, List.find?_cons, h5]
      have hmi : (k₀ ∈ keys ((k', evs) :: m)) ↔ k₀ ∈ keys m := by
        simp [keys, Ne.symm hk]
      by_cases hmem : k₀ ∈ keys m
      · rw [if_pos hmem, if_pos (hmi.mpr hmem), hge]
      · rw [if_neg hmem, if_neg (fun hx => hmem (hmi.mp hx))]

theorem mem_insertSorted {α : Type} (le : α → α → Bool) (a x : α) :
    ∀ l, x ∈ insertSorted le a l ↔ x = a ∨ x ∈ l := by
  intro l
  induction l with
  | nil => simp [insertSorted]
  | cons b t ih =>
    rw [insertSorted]
    split
    · simp
    · simp only [List.mem_cons, ih]
      tauto

theorem mem_stableSortBy {α : Type} (le : α → α → Bool) (x : α) :
    ∀ l, x ∈ stableSortBy le l ↔ x ∈ l := by
  intro l
  induction l with
  | nil => simp [stableSortBy]
  | cons a t ih =>
    rw [stableSortBy, mem_insertSorted]
    simp [ih]

theorem filter_of_map {α β : Type} (f : α → β) (p : β → Bool) :
    ∀ l : List α, (l.map f).filter p = (l.filter (fun a => p (f a))).map f := by
  intro l
  induction l with
  | nil => rfl
  | cons a t ih =>
    rw [List.map_cons, List.filter_cons, List.filter_cons]
    by_cases h : p (f a)
    · rw [if_pos h, if_pos h, List.map_cons, ih]
    · rw [if_neg h, if_neg h, ih]

theorem groupFold_nodup (events : List Event) : (keys (groupFold events)).Nodup :=
  (groupFold_spec events [] (by simp [keys]) (by simp)).1

theorem groupFold_entries_ne (events : List Event) :
    ∀ g ∈ groupFold events, g.2 ≠ [] :=
  (groupFold_spec events [] (by simp [keys]) (by simp)).2.1

theorem groupFold_assocGet (events : List Event) (k : String) :
    assocGet (groupFold events) k = events.filter (matchesKey k) := by
  have h := (groupFold_spec events [] (by simp [keys]) (by simp)).2.2 k
  simpa [assocGet] using h

theorem matchesKey_iff {k : String} {ev : Event} :
    matchesKey k ev = true ↔
      ¬ ev.start = "" ∧ ¬ ev.«end» = "" ∧ groupKeyOf ev = k := by
  simp [matchesKey, and_assoc]

/-- Unfolding of `analyzeCalendar` on a non-empty event list. -/
theorem analyzeCalendar_eq (parse : String → Option ℚ) (events : List Event)
    (config : AnalyzerConfig) (hne : events ≠ []) :
    analyzeCalendar parse events config =
      (groupFold events).map (fun g =>
        { email := (parseGroupKey g.1).1, date := (parseGroupKey g.1).2,
          blocks := analyzeDayBlocks parse (stableSortBy (eventStartLe parse) g.2)
            (parseGroupKey g.1).2 config }) := by
  unfold analyzeCalendar groupEventsByUserAndDay
  cases events with
  | nil => exact absurd rfl hne
  | cons ev evs =>
    rw [if_neg (by simp)]
    rw [List.map_map]
    rfl

/-- C7: with well-formed calendar ids and date keys, each (user, date) pair
present in the input yields exactly one analysis entry; and when every event
of that pair is all-day or entirely outside the (valid, parsed) workday
window, that entry's timeline is the single free block spanning the whole
workday. -/
theorem C7_unique_day_timeline (parse : String → Option ℚ) (events : List Event)
    (config : AnalyzerConfig) (u d : String)
    (hwf : ∀ ev ∈ events,
      wfCalendarId ev.calendarId = true ∧ noUU (extractDate ev.start) = true)
    (hpresent : ∃ ev ∈ events, ¬ ev.start = "" ∧ ¬ ev.«end» = "" ∧
      ev.calendarId = u ∧ extractDate ev.start = d) :
    ((analyzeCalendar parse events config).filter
        (fun r => r.email == u && r.date == d)).length = 1 ∧
    (∀ ws we : ℚ,
      parse (d ++ "T" ++ config.workdayStart ++ ":00") = some ws →
      parse (d ++ "T" ++ config.workdayEnd ++ ":00") = some we →
      ws < we →
      (∀ ev ∈ events, ev.calendarId = u → extractDate ev.start = d →
        ev.allDay = true ∨ jsGt (parse ev.«end») (some ws) = false ∨
          jsLt (parse ev.start) (some we) = false) →
      (analyzeCalendar parse events config).filter
          (fun r => r.email == u && r.date == d) =
        [{ email := u, date := d, blocks := [buildFreeBlock (some ws) (some we)] }]) := by
  obtain ⟨evP, hevP, hP1, hP2, hP3, hP4⟩ := hpresent
  have hne : events ≠ [] := by
    intro h0
    rw [h0] at hevP
    exact absurd hevP (by simp)
  have hwfP := hwf evP hevP
  have hKey : groupKeyOf evP = u ++ "__" ++ d := by
    rw [groupKeyOf, hP3, hP4]
  have hu : wfCalendarId u = true := by rw [← hP3]; exact hwfP.1
  have hd : noUU d = true := by rw [← hP4]; exact hwfP.2
  have hPK : parseGroupKey (u ++ "__" ++ d) = (u, d) := parseGroupKey_append u d hu hd
  have hkeywf : ∀ g ∈ groupFold events, ∃ ev ∈ events,
      matchesKey g.1 ev = true ∧ groupKeyOf ev = g.1 := by
    intro g hg
    have hgk : g.1 ∈ keys (groupFold events) := by
      rw [keys]
      exact List.mem_map_of_mem Prod.fst hg
    have hnn := (mem_keys_iff_assocGet g.1 (groupFold events)
      (groupFold_entries_ne events)).1 hgk
    rw [groupFold_assocGet] at hnn
    obtain ⟨ev, hev⟩ := List.exists_mem_of_ne_nil _ hnn
    have hev' := List.mem_filter.1 hev
    exact ⟨ev, hev'.1, hev'.2, (matchesKey_iff.1 hev'.2).2.2⟩
  have hmain : (analyzeCalendar parse events config).filter
      (fun r => r.email == u && r.date == d) =
      [{ email := u, date := d,
         blocks := analyzeDayBlocks parse
           (stableSortBy (eventStartLe parse)
             (events.filter (matchesKey (u ++ "__" ++ d)))) d config }] := by
    rw [analyzeCalendar_eq parse events config hne, filter_of_map]
    have hcong : (groupFold events).filter
        (fun g => (parseGroupKey g.1).1 == u && (parseGroupKey g.1).2 == d) =
        (groupFold events).filter (fun g => g.1 == u ++ "__" ++ d) := by
      apply List.filter_congr
      intro g hg
      obtain ⟨ev, hev, hmk, hgk⟩ := hkeywf g hg
      have hpg : parseGroupKey g.1 = (ev.calendarId, extractDate ev.start) := by
        rw [← hgk]
        exact parseGroupKey_append _ _ (hwf ev hev).1 (hwf ev hev).2
      rw [hpg]
      rw [Bool.eq_iff_iff]
      simp only [Bool.and_eq_true, beq_iff_eq]
      constructor
      · rintro ⟨h1, h2⟩
        rw [← hgk, groupKeyOf, h1, h2]
      · intro h1
        have h2 : parseGroupKey g.1 = (u, d) := by rw [h1]; exact hPK
        rw [hpg] at h2
        exact ⟨congrArg Prod.fst h2, congrArg Prod.snd h2⟩
    rw [hcong, filter_keys_eq _ (groupFold events) (groupFold_nodup events)]
    have hKmem : (u ++ "__" ++ d) ∈ keys (groupFold events) := by
      rw [mem_keys_iff_assocGet _ _ (groupFold_entries_ne events), groupFold_assocGet]
      intro h0
      have hmem : evP ∈ events.filter (matchesKey (u ++ "__" ++ d)) := by
        rw [List.mem_filter]
        exact ⟨hevP, matchesKey_iff.2 ⟨hP1, hP2, hKey⟩⟩
      rw [h0] at hmem
      exact absurd hmem (by simp)
    rw [if_pos hKmem, groupFold_assocGet, List.map_cons, List.map_nil]
    simp [hPK]
  refine ⟨by rw [hmain]; rfl, ?_⟩
  intro ws we hws hwe hlt hnoq
  rw [hmain]
  have hblocks : analyzeDayBlocks parse
      (stableSortBy (eventStartLe parse)
        (events.filter (matchesKey (u ++ "__" ++ d)))) d config =
      [buildFreeBlock (some ws) (some we)] := by
    have hempty : (((stableSortBy (eventStartLe parse)
        (events.filter (matchesKey (u ++ "__" ++ d)))).filter
          (fun ev => !ev.allDay)).map (toRawBusy parse)).filter
        (fun b => jsGt b.«end» (some ws) && jsLt b.start (some we)) = [] := by
      rw [List.filter_eq_nil_iff]
      intro raw hraw
      rw [List.mem_map] at hraw
      obtain ⟨ev, hev, rfl⟩ := hraw
      rw [List.mem_filter] at hev
      obtain ⟨hevs, hall⟩ := hev
      have hevE := (mem_stableSortBy (eventStartLe parse) ev _).1 hevs
      rw [List.mem_filter] at hevE
      obtain ⟨hevev, hmk⟩ := hevE
      obtain ⟨-, -, hgk⟩ := matchesKey_iff.1 hmk
      have hpg : parseGroupKey (groupKeyOf ev) =
          (ev.calendarId, extractDate ev.start) :=
        parseGroupKey_append _ _ (hwf ev hevev).1 (hwf ev hevev).2
      rw [hgk, hPK] at hpg
      have hcid : ev.calendarId = u := (congrArg Prod.fst hpg).symm
      have hdate : extractDate ev.start = d := (congrArg Prod.snd hpg).symm
      rcases hnoq ev hevev hcid hdate with hAD | hG | hL
      · rw [hAD] at hall
        exact absurd hall (by simp)
      · simp [toRawBusy, hG]
      · simp [toRawBusy, hL]
    simp only [analyzeDayBlocks, hws, hwe, busyBlocksOf, hempty, List.map_nil]
    simp only [walk]
    rw [if_pos (by simp [hlt] : jsLt (some ws) (some we) = true)]
    have hpos : (0 : ℚ) < (we - ws) / 60000 := div_pos (by linarith) (by norm_num)
    rw [if_pos (by simp [buildFreeBlock, msToMin, jsSub, jsGt, jsLt, hpos] :
      jsGt (buildFreeBlock (some ws) (some we)).duration (some 0) = true)]
  rw [hblocks]

theorem C7_unique_day_timeline_witness :
    (∀ ev ∈ [evAllDay],
      wfCalendarId ev.calendarId = true ∧ noUU (extractDate ev.start) = true) ∧
    (∃ ev ∈ [evAllDay], ¬ ev.start = "" ∧ ¬ ev.«end» = "" ∧
      ev.calendarId = "a@x.com" ∧ extractDate ev.start = "2025-01-06") ∧
    ((analyzeCalendar parseDemo [evAllDay] cfgDemo).filter
        (fun r => r.email == "a@x.com" && r.date == "2025-01-06")).length = 1 ∧
    (analyzeCalendar parseDemo [evAllDay] cfgDemo).filter
        (fun r => r.email == "a@x.com" && r.date == "2025-01-06") =
      [{ email := "a@x.com", date := "2025-01-06",
         blocks := [buildFreeBlock (some 0) (some 36000000)] }] := by
  have hwf : ∀ ev ∈ [evAllDay],
      wfCalendarId ev.calendarId = true ∧ noUU (extractDate ev.start) = true := by
    decide
  have hpres : ∃ ev ∈ [evAllDay], ¬ ev.start = "" ∧ ¬ ev.«end» = "" ∧
      ev.calendarId = "a@x.com" ∧ extractDate ev.start = "2025-01-06" := by
    decide
  have h := C7_unique_day_timeline parseDemo [evAllDay] cfgDemo "a@x.com" "2025-01-06"
    hwf hpres
  refine ⟨hwf, hpres, h.1, ?_⟩
  refine h.2 0 36000000 rfl rfl (by norm_num) ?_
  intro ev hev _ _
  rw [List.mem_singleton] at hev
  subst hev
  exact Or.inl rfl

/-- An event whose calendar id itself contains the `"__"` separator. -/
def evDouble : Event :=
  { calendarId := "a__b", start := "2025-01-06T09:00:00Z",
    «end» := "2025-01-06T10:00:00Z", allDay := false, summary := "s" }

/-- C7 counterexample: for the (user, date) pair `("a__b", "2025-01-06")`
present in the input, no `DayTimeline` with that email and date is produced
at all (the composite key `"a__b__2025-01-06"` splits at the first `"__"`,
yielding email `"a"` and date `"b"`), so "exactly one" fails. -/
theorem C7_counterexample :
    (∃ ev ∈ [evDouble], ¬ ev.start = "" ∧ ¬ ev.«end» = "" ∧
      ev.calendarId = "a__b" ∧ extractDate ev.start = "2025-01-06") ∧
    (analyzeCalendar parseDemo [evDouble] cfgDemo).map
        (fun r => (r.email, r.date)) = [("a", "b")] ∧
    ((analyzeCalendar parseDemo [evDouble] cfgDemo).filter
        (fun r => r.email == "a__b" && r.date == "2025-01-06")).length = 0 := by
  refine ⟨by decide, by decide, by decide⟩

/-! ## C10: the composite "__" key -/

/-- A calendar id that contains no `"__"` but ends in `'_'`. -/
def evUnderscore : Event :=
  { calendarId := "a_", start := "2025-01-06T09:00:00Z",
    «end» := "2025-01-06T10:00:00Z", allDay := false, summary := "s" }

/-- C10 counterexample: the calendar id `"a_"` contains no `"__"`, yet the
emitted email is `"a"` (not `"a_"`) and the emitted date is
`"_2025-01-06"` (not the civil date): the trailing `'_'` merges with the
`"__"` separator, so the first `"__"` occurrence in the key sits one
character early. -/
theorem C10_counterexample :
    splitFirst ['_', '_'] "a_".data = none ∧
    (analyzeCalendar parseDemo [evUnderscore] cfgDemo).map
        (fun r => (r.email, r.date)) = [("a", "_2025-01-06")] ∧
    ("a" : String) ≠ "a_" ∧
    ("_2025-01-06" : String) ≠ extractDate evUnderscore.start := by
  refine ⟨by decide, by decide, by decide, by decide⟩

/-- C10 amended: when a calendar id contains no `"__"` *and does not end in
`'_'*`, and the date key has no `"__"`, every analysis entry's email/date is
the calendar id and start-date of one of its events; and for an id that does
contain `"__"` the email is only the prefix before the first `"__"` and the
date is the following id fragment, not the civil date. -/
theorem C10_split_amended (parse : String → Option ℚ) (events : List Event)
    (config : AnalyzerConfig)
    (hwf : ∀ ev ∈ events,
      wfCalendarId ev.calendarId = true ∧ noUU (extractDate ev.start) = true) :
    (∀ r ∈ analyzeCalendar parse events config,
      ∃ ev ∈ events, r.email = ev.calendarId ∧ r.date = extractDate ev.start) ∧
    parseGroupKey ("x__y" ++ "__" ++ "2025-01-06") = ("x", "y") := by
  constructor
  · intro r hr
    by_cases hne : events = []
    · subst hne
      simp [analyzeCalendar] at hr
    · rw [analyzeCalendar_eq parse events config hne] at hr
      rw [List.mem_map] at hr
      obtain ⟨g, hg, rfl⟩ := hr
      have hgk : g.1 ∈ keys (groupFold events) := by
        rw [keys]
        exact List.mem_map_of_mem Prod.fst hg
      have hnn := (mem_keys_iff_assocGet g.1 (groupFold events)
        (groupFold_entries_ne events)).1 hgk
      rw [groupFold_assocGet] at hnn
      obtain ⟨ev, hev⟩ := List.exists_mem_of_ne_nil _ hnn
      have hev' := List.mem_filter.1 hev
      have hgkey := (matchesKey_iff.1 hev'.2).2.2
      have hpg : parseGroupKey g.1 = (ev.calendarId, extractDate ev.start) := by
        rw [← hgkey]
        exact parseGroupKey_append _ _ (hwf ev hev'.1).1 (hwf ev hev'.1).2
      exact ⟨ev, hev'.1, by rw [hpg], by rw [hpg]⟩
  · decide

theorem C10_split_amended_witness :
    (∀ ev ∈ [evBig],
      wfCalendarId ev.calendarId = true ∧ noUU (extractDate ev.start) = true) ∧
    (∀ r ∈ analyzeCalendar parseDemo [evBig] cfgDemo,
      ∃ ev ∈ [evBig], r.email = ev.calendarId ∧ r.date = extractDate ev.start) ∧
    parseGroupKey ("x__y" ++ "__" ++ "2025-01-06") = ("x", "y") := by
  have hwf : ∀ ev ∈ [evBig],
      wfCalendarId ev.calendarId = true ∧ noUU (extractDate ev.start) = true := by
    decide
  have h := C10_split_amended parseDemo [evBig] cfgDemo hwf
  exact ⟨hwf, h.1, h.2⟩

end MBI
